import Mathlib

/-!
Shallow embedding of the workload-resolution core of the swscore repository
(file business/workloads.go) and proofs about it.

The embedding translates the resolution pipeline of fetchWorkloads and
fetchWorkload: index building from pod owner references, the one-hop
parent resolution for replica-sets / replication-controllers / jobs,
orphan completion, and workload materialization.  Machine concurrency is
flattened: each of the nine fetches is an input (its fetched list, or an
error), and the error-channel discipline is modelled explicitly.  The Go
map over controller names is modelled as an association list with unique
keys; Go map iteration order is unspecified, so the model fixes insertion
order, a behaviour Go permits.
-/

namespace Swscore

/-- Owner reference as used by the resolution code: referenced name and
kind, plus the flag modelling the Go test ref.Controller != nil &&
*ref.Controller. -/
structure OwnerRef where
  name : String
  kind : String
  controller : Bool
  deriving DecidableEq, Repr

/-- Label sets are finite maps modelled as lists of key-value pairs. -/
abbrev Labels := List (String × String)

/-- Observed pod: the fields of core_v1.Pod the resolution code reads. -/
structure CorePod where
  name : String
  labels : Labels
  ownerRefs : List OwnerRef
  deriving DecidableEq, Repr

/-- Fetched controller object (deployment, replica-set, job, ...): the
fields read by fetchWorkloads.  templateLabels models
Spec.Template.Labels (for a cron-job, the nested
Spec.JobTemplate.Spec.Template.Labels). -/
structure KController where
  name : String
  ownerRefs : List OwnerRef
  templateLabels : Labels
  deriving DecidableEq, Repr

/-- Modelled from the spec: label selector matching from the kubernetes
labels package (not under src).  A selector obtained from a label set
matches a pod whose labels contain every selector pair; the empty
selector matches everything. -/
def matchesLabels (sel : Labels) (lbls : Labels) : Bool :=
  sel.all (fun kv => lbls.contains kv)

/-- Modelled from the spec: kubernetes.FilterPodsForSelector (not under
src).  Section 4.4 of the spec: compute the selector from the template
label set and filter the global pod set by that selector. -/
def FilterPodsForSelector (sel : Labels) (pods : List CorePod) : List CorePod :=
  pods.filter (fun p => matchesLabels sel p.labels)

/-- Modelled from the spec: kubernetes.FilterPodsForController (not under
src).  Section 4.4 of the spec: filter pods by owner-name and owner-kind
matching via owner references rather than label selector. -/
def FilterPodsForController (cname ctype : String) (pods : List CorePod) : List CorePod :=
  pods.filter (fun p => p.ownerRefs.any (fun r => r.name == cname && r.kind == ctype))

/-- Resolved workload record: the projection of models.Workload the
claims speak about (name, kind, matched pods).  The Parse functions of
the models package (not under src) are modelled from the spec: they
populate the workload from the typed object, so the workload name is the
controller name and the kind tag is the resolved kind. -/
structure Workload where
  name : String
  wtype : String
  pods : List CorePod
  deriving DecidableEq, Repr

/-! ### The controller index

The Go code uses a map from controller name to controller kind
(variable controllers in fetchWorkloads).  We embed it as an association
list with unique keys: insertion replaces the value in place. -/

/-- Controller index: Key is the name of a controller, value its type. -/
abbrev CIndex := List (String × String)

/-- Lookup in the controller index (Go map read). -/
def idxLookup (m : CIndex) (k : String) : Option String :=
  match m with
  | [] => none
  | (k0, v0) :: rest => if k0 = k then some v0 else idxLookup rest k

/-- Insertion into the controller index (Go map write): replaces the
value when the key is present, otherwise appends the pair. -/
def idxInsert (m : CIndex) (k v : String) : CIndex :=
  match m with
  | [] => [(k, v)]
  | (k0, v0) :: rest => if k0 = k then (k0, v) :: rest else (k0, v0) :: idxInsert rest k v

/-- Deletion from the controller index (Go delete). -/
def idxErase (m : CIndex) (k : String) : CIndex :=
  match m with
  | [] => []
  | (k0, v0) :: rest => if k0 = k then idxErase rest k else (k0, v0) :: idxErase rest k

/-- Keys of the controller index. -/
def idxKeys (m : CIndex) : List String := m.map Prod.fst

/-! ### controllerOrder and controllerPriority (workloads.go 1604-1629) -/

/-- The fixed rank table of controllerOrder in workloads.go. -/
def controllerOrder : String → Option Int := fun k =>
  if k = "Deployment" then some 6
  else if k = "DeploymentConfig" then some 5
  else if k = "ReplicaSet" then some 4
  else if k = "ReplicationController" then some 3
  else if k = "StatefulSet" then some 2
  else if k = "Job" then some 1
  else if k = "DaemonSet" then some 0
  else if k = "Pod" then some (-1)
  else none

/-- Effective weight used by controllerPriority: a Go map read of a
missing key yields the zero value, so a kind absent from the rank table
weighs 0. -/
def effectiveOrder (k : String) : Int :=
  (controllerOrder k).getD 0

/-- controllerPriority from workloads.go: returns type1 when its weight
is greater than or equal, otherwise type2. -/
def controllerPriority (type1 type2 : String) : String :=
  if effectiveOrder type2 ≤ effectiveOrder type1 then type1 else type2

/-! ### Index building from pods (workloads.go 602-622) -/

/-- Record or merge one owner reference into the index, exactly the Go
block: absent name is inserted with the reference kind, a present name
with a different kind is replaced by controllerPriority of the existing
and the new kind. -/
def mergeController (m : CIndex) (name kind : String) : CIndex :=
  match idxLookup m name with
  | none => idxInsert m name kind
  | some k0 => if k0 ≠ kind then idxInsert m name (controllerPriority k0 kind) else m

/-- Processing of one pod while building the index (workloads.go
603-622): a pod with owner references contributes every reference whose
controller flag is set; a pod with no owner references at all is
recorded under its own name with kind Pod when the name is absent. -/
def buildIndexPod (m : CIndex) (p : CorePod) : CIndex :=
  if p.ownerRefs.length ≠ 0 then
    p.ownerRefs.foldl
      (fun m r => if r.controller then mergeController m r.name r.kind else m) m
  else
    match idxLookup m p.name with
    | none => idxInsert m p.name "Pod"
    | some _ => m

/-- Index built by scanning all pods (workloads.go 602-622). -/
def buildIndex (pods : List CorePod) : CIndex :=
  pods.foldl buildIndexPod []

/-! ### One-hop parent resolution (workloads.go 624-717) -/

/-- One-hop resolution of a replica-set or replication-controller entry
(workloads.go 628-653 and 654-679): find the live object by name; for
every controller-owning owner reference, merge the parent into the index
and delete the child entry. -/
def hopChild (objs : List KController) (m : CIndex) (cname : String) : CIndex :=
  match objs.find? (fun o => o.name == cname) with
  | none => m
  | some o =>
    o.ownerRefs.foldl
      (fun m r =>
        if r.controller then idxErase (mergeController m r.name r.kind) cname else m) m

/-- One-hop resolution of a job entry (workloads.go 680-716): merge the
parent as for the other child kinds, but delete the job entry only when
a cron-job with the parent name exists in the fetched cron-job list. -/
def hopChildJob (jbs conjbs : List KController) (m : CIndex) (cname : String) : CIndex :=
  match jbs.find? (fun o => o.name == cname) with
  | none => m
  | some jb =>
    jb.ownerRefs.foldl
      (fun m r =>
        if r.controller then
          let m1 := mergeController m r.name r.kind
          if conjbs.any (fun c => c.name == r.name) then idxErase m1 cname else m1
        else m) m

/-- One step of the resolution loop body for a visited name: the kind is
read from the current index and the matching child branch applies
(workloads.go 627-717). -/
def hopName (repset repcon jbs conjbs : List KController) (m : CIndex) (cname : String) :
    CIndex :=
  match idxLookup m cname with
  | none => m
  | some ctype =>
    let m1 := if ctype = "ReplicaSet" then hopChild repset m cname else m
    let m2 := if ctype = "ReplicationController" then hopChild repcon m1 cname else m1
    if ctype = "Job" then hopChildJob jbs conjbs m2 cname else m2

/-- The whole resolution hop: the loop ranges over the names present in
the index when the loop starts, threading the mutated index.  Entries
inserted during the loop carry parent kinds and are not revisited, a
behaviour the Go map range permits. -/
def resolveHop (repset repcon jbs conjbs : List KController) (m : CIndex) : CIndex :=
  (idxKeys m).foldl (hopName repset repcon jbs conjbs) m

/-! ### Orphan completion (workloads.go 719-781) -/

/-- Selector check of a pass: with no selector supplied (or an
unparseable one) everything passes, otherwise the template labels must
match (workloads.go 729-732). -/
def selectorCheck (sel : Option Labels) (o : KController) : Bool :=
  match sel with
  | none => true
  | some s => matchesLabels s o.templateLabels

/-- One orphan-completion pass over one fetched controller list
(workloads.go 728-781): each object whose name is not yet a key is added
under the given kind when the selector check passes; replica-sets and
replication-controllers additionally require zero owner references. -/
def orphanPass (sel : Option Labels) (needsNoOwner : Bool) (kind : String)
    (objs : List KController) (m : CIndex) : CIndex :=
  objs.foldl
    (fun m o =>
      if idxLookup m o.name = none ∧ (needsNoOwner → o.ownerRefs = []) ∧
          selectorCheck sel o = true then
        idxInsert m o.name kind
      else m) m

/-- Fetched controller lists of one fetchWorkloads call. -/
structure FetchLists where
  pods : List CorePod
  dep : List KController
  repset : List KController
  depcon : List KController
  repcon : List KController
  fulset : List KController
  daeset : List KController
  jbs : List KController
  conjbs : List KController
  deriving DecidableEq, Repr

/-- All six orphan-completion passes in source order (workloads.go
728-781). -/
def orphanComplete (sel : Option Labels) (D : FetchLists) (m : CIndex) : CIndex :=
  let m := orphanPass sel false "Deployment" D.dep m
  let m := orphanPass sel true "ReplicaSet" D.repset m
  let m := orphanPass sel false "DeploymentConfig" D.depcon m
  let m := orphanPass sel true "ReplicationController" D.repcon m
  let m := orphanPass sel false "StatefulSet" D.fulset m
  orphanPass sel false "DaemonSet" D.daeset m

/-! ### Workload materialization (workloads.go 783-995) -/

/-- Materialization of one known controller kind from its fetched list
(workloads.go switch cases): exact name match, pods filtered by the
template-label selector; a missing object clears the cnFound flag and
the entry is excluded (result none). -/
def materializeKind (objs : List KController) (kind : String) (cname : String)
    (pods : List CorePod) : Option Workload :=
  match objs.find? (fun o => o.name == cname) with
  | some o => some ⟨cname, kind, FilterPodsForSelector o.templateLabels pods⟩
  | none => none

/-- Materialization of one resolved entry (workloads.go 789-979): the
switch over the resolved type.  The default branch treats expected
children as replica-sets when the kind is unranked, filters pods by
owner reference, and populates the workload keeping the custom kind
(version metadata borrowed from a name-prefixed replica-set is not part
of the modelled projection). -/
def materializeOne (D : FetchLists) (m : CIndex) (cname : String) : Option Workload :=
  match idxLookup m cname with
  | none => none
  | some ctype =>
    if ctype = "Deployment" then materializeKind D.dep ctype cname D.pods
    else if ctype = "ReplicaSet" then materializeKind D.repset ctype cname D.pods
    else if ctype = "ReplicationController" then materializeKind D.repcon ctype cname D.pods
    else if ctype = "DeploymentConfig" then materializeKind D.depcon ctype cname D.pods
    else if ctype = "StatefulSet" then materializeKind D.fulset ctype cname D.pods
    else if ctype = "Pod" then
      match D.pods.find? (fun p => p.name == cname) with
      | some p => some ⟨cname, "Pod", [p]⟩
      | none => none
    else if ctype = "Job" then materializeKind D.jbs ctype cname D.pods
    else if ctype = "CronJob" then materializeKind D.conjbs ctype cname D.pods
    else if ctype = "DaemonSet" then materializeKind D.daeset ctype cname D.pods
    else
      let childType := if (controllerOrder ctype).isSome then ctype else "ReplicaSet"
      some ⟨cname, ctype, FilterPodsForController cname childType D.pods⟩

/-- The controller index of fetchWorkloads after index building, the
resolution hop and orphan completion (workloads.go 599-781). -/
def finalIndex (D : FetchLists) (sel : Option Labels) : CIndex :=
  orphanComplete sel D (resolveHop D.repset D.repcon D.jbs D.conjbs (buildIndex D.pods))

/-- The resolution pipeline of fetchWorkloads after a successful fetch
phase (workloads.go 599-996): build the index from pods, run the
one-hop resolution, complete orphans, then materialize every entry in
sorted name order, dropping entries whose object is not found. -/
def fetchWorkloadsPure (D : FetchLists) (sel : Option Labels) : List Workload :=
  ((idxKeys (finalIndex D sel)).insertionSort (· ≤ ·)).filterMap
    (materializeOne D (finalIndex D sel))

/-! ### The fetch phase and its error channel (workloads.go 462-597)

Nine goroutines each fetch one resource kind.  Each fetch outcome is an
input of the model: a fetched list or an error message.  Eight of the
goroutines forward their error on the buffered error channel of
capacity 9; the daemon-set goroutine (workloads.go 578-591) only logs
its error and forwards nothing.  On error the output variable of the
goroutine keeps its zero value, an empty list. -/

instance {ε α : Type} [DecidableEq ε] [DecidableEq α] : DecidableEq (Except ε α) :=
  fun x y =>
    match x, y with
    | .ok a, .ok b =>
      if h : a = b then .isTrue (by rw [h])
      else .isFalse (by intro hc; cases hc; exact h rfl)
    | .ok _, .error _ => .isFalse (by intro hc; cases hc)
    | .error _, .ok _ => .isFalse (by intro hc; cases hc)
    | .error e, .error f =>
      if h : e = f then .isTrue (by rw [h])
      else .isFalse (by intro hc; cases hc; exact h rfl)

/-- Outcome of each of the nine concurrent fetches. -/
structure FetchAttempts where
  podsR : Except String (List CorePod)
  depR : Except String (List KController)
  repsetR : Except String (List KController)
  repconR : Except String (List KController)
  depconR : Except String (List KController)
  fulsetR : Except String (List KController)
  conjbsR : Except String (List KController)
  jbsR : Except String (List KController)
  daesetR : Except String (List KController)
  deriving DecidableEq, Repr

/-- Error of one fetch outcome, when it failed. -/
def attemptError {α : Type} (r : Except String α) : List String :=
  match r with
  | .ok _ => []
  | .error e => [e]

/-- Contents of the error channel after all nine goroutines finish, in
goroutine declaration order: pods, deployments, replica-sets,
replication-controllers, deployment-configs, stateful-sets, cron-jobs,
jobs.  The daemon-set goroutine never sends (workloads.go 587-589). -/
def forwardedErrors (a : FetchAttempts) : List String :=
  attemptError a.podsR ++ attemptError a.depR ++ attemptError a.repsetR ++
    attemptError a.repconR ++ attemptError a.depconR ++ attemptError a.fulsetR ++
    attemptError a.conjbsR ++ attemptError a.jbsR

/-- Fetched lists available after the fetch phase: a failed fetch leaves
its output variable at the zero value, the empty list. -/
def listsOf (a : FetchAttempts) : FetchLists :=
  { pods := (a.podsR.toOption).getD []
    dep := (a.depR.toOption).getD []
    repset := (a.repsetR.toOption).getD []
    depcon := (a.depconR.toOption).getD []
    repcon := (a.repconR.toOption).getD []
    fulset := (a.fulsetR.toOption).getD []
    daeset := (a.daesetR.toOption).getD []
    jbs := (a.jbsR.toOption).getD []
    conjbs := (a.conjbsR.toOption).getD [] }

/-- fetchWorkloads with the fetch phase included (workloads.go 443-997):
after waiting for all goroutines, a non-empty error channel makes the
call return the first received error together with the still-empty
workload list; otherwise the resolution pipeline runs.  The result pair
mirrors the Go return (ws, err). -/
def fetchWorkloadsRun (a : FetchAttempts) (sel : Option Labels) :
    List Workload × Option String :=
  match forwardedErrors a with
  | [] => (fetchWorkloadsPure (listsOf a) sel, none)
  | e :: _ => ([], some e)

/-! ### The single-workload path fetchWorkload (workloads.go 999-1533)

The fetch phase of fetchWorkload retrieves single objects for some kinds
and lists for others, each goroutine skipped when a non-empty workload
type hint selects a different kind.  The environment below holds what
the (external) getters would return; the gating is applied in the model.
Fetch errors are not modelled on this path: the claims about it concern
the resolution outcome after a successful fetch phase. -/

/-- Environment of one fetchWorkload call: what each getter would
return.  Single-object getters yield an Option (NotFound gives none,
workloads.go 1063-1070, 1119-1121, 1138-1140, 1185-1187). -/
structure SingleEnv where
  pods : List CorePod
  dep : Option KController
  repset : List KController
  repcon : List KController
  depcon : Option KController
  fulset : Option KController
  jbs : List KController
  conjbs : List KController
  ds : Option KController
  deriving DecidableEq, Repr

/-- Gating of the per-kind fetches by the workload type hint
(workloads.go 1049-1189): a goroutine returns early when a non-empty
hint names a different kind; the replica-set list is also fetched for
any unranked hint (workloads.go 1026, 1077). -/
def gatedEnv (env : SingleEnv) (workloadType : String) : SingleEnv :=
  let knownWorkloadType := (controllerOrder workloadType).isSome
  { pods := env.pods
    dep := if workloadType = "" ∨ workloadType = "Deployment" then env.dep else none
    repset :=
      if workloadType = "" ∨ workloadType = "ReplicaSet" ∨ ¬knownWorkloadType then
        env.repset
      else []
    repcon :=
      if workloadType = "" ∨ workloadType = "ReplicationController" then env.repcon else []
    depcon := if workloadType = "" ∨ workloadType = "DeploymentConfig" then env.depcon else none
    fulset := if workloadType = "" ∨ workloadType = "StatefulSet" then env.fulset else none
    jbs := if workloadType = "" ∨ workloadType = "Job" then env.jbs else []
    conjbs := if workloadType = "" ∨ workloadType = "CronJob" then env.conjbs else []
    ds := if workloadType = "" ∨ workloadType = "DaemonSet" then env.ds else none }

/-- Orphan completion of the single-workload path (workloads.go
1317-1347): single objects are added when present and not yet in the
index; replica-sets and replication-controllers require zero owner
references.  No selector is involved on this path. -/
def orphanCompleteSingle (env : SingleEnv) (m : CIndex) : CIndex :=
  let addOpt := fun (kind : String) (o : Option KController) (m : CIndex) =>
    match o with
    | some d => if idxLookup m d.name = none then idxInsert m d.name kind else m
    | none => m
  let m := addOpt "Deployment" env.dep m
  let m := orphanPass none true "ReplicaSet" env.repset m
  let m := addOpt "DeploymentConfig" env.depcon m
  let m := orphanPass none true "ReplicationController" env.repcon m
  let m := addOpt "StatefulSet" env.fulset m
  addOpt "DaemonSet" env.ds m

/-- Final index computed by fetchWorkload before materialization
(workloads.go 1197-1347). -/
def resolvedSingleIndex (env : SingleEnv) (workloadType : String) : CIndex :=
  let g := gatedEnv env workloadType
  let m0 := buildIndex g.pods
  let m1 := resolveHop g.repset g.repcon g.jbs g.conjbs m0
  orphanCompleteSingle g m1

/-- The kind that selects the materialization branch (workloads.go
1359-1364): the resolved kind, unless a non-empty hint disagrees, in
which case the hint wins. -/
def pickControllerType (ctype workloadType : String) : String :=
  if workloadType ≠ "" ∧ ctype ≠ workloadType then workloadType else ctype

/-- Materialization of a single-object branch of fetchWorkload
(workloads.go 1368-1376 and analogous cases): the object must be
present and carry the requested name. -/
def materializeOpt (o : Option KController) (kind cname : String) (pods : List CorePod) :
    Option Workload :=
  match o with
  | some d =>
    if d.name = cname then
      some ⟨cname, kind, FilterPodsForSelector d.templateLabels pods⟩
    else none
  | none => none

/-- The switch of fetchWorkload over the selected controller type
(workloads.go 1367-1515).  The default branch uses the resolved kind
ctype, not the selected one, for the child-type computation
(workloads.go 1493-1514). -/
def materializeSingle (g : SingleEnv) (cname ctype controllerType : String) :
    Option Workload :=
  if controllerType = "Deployment" then materializeOpt g.dep controllerType cname g.pods
  else if controllerType = "ReplicaSet" then
    materializeKind g.repset controllerType cname g.pods
  else if controllerType = "ReplicationController" then
    materializeKind g.repcon controllerType cname g.pods
  else if controllerType = "DeploymentConfig" then
    materializeOpt g.depcon controllerType cname g.pods
  else if controllerType = "StatefulSet" then
    materializeOpt g.fulset controllerType cname g.pods
  else if controllerType = "Pod" then
    match g.pods.find? (fun p => p.name == cname) with
    | some p => some ⟨cname, "Pod", [p]⟩
    | none => none
  else if controllerType = "Job" then materializeKind g.jbs controllerType cname g.pods
  else if controllerType = "CronJob" then
    materializeKind g.conjbs controllerType cname g.pods
  else if controllerType = "DaemonSet" then materializeOpt g.ds controllerType cname g.pods
  else
    let childType := if (controllerOrder ctype).isSome then ctype else "ReplicaSet"
    some ⟨cname, ctype, FilterPodsForController cname childType g.pods⟩

/-- Error type of the single-workload path.  Modelled from the spec:
kubernetes.NewNotFound (not under src) builds a distinct typed Not-Found
condition carrying name, group and kind, distinguishable from a generic
error. -/
inductive WErr where
  | notFound (name group kind : String)
  | generic (msg : String)
  deriving DecidableEq, Repr

/-- Modelled from the spec: kubernetes.NewNotFound as called at
workloads.go 1532. -/
def NewNotFound (name group kind : String) : WErr :=
  WErr.notFound name group kind

/-- fetchWorkload after a successful fetch phase (workloads.go
1197-1533): resolve the index, look up the requested name, pick the
materialization branch (hint wins over resolution on disagreement), and
return the workload when found; every other outcome is the typed
Not-Found condition. -/
def fetchWorkloadPure (env : SingleEnv) (workloadName workloadType : String) :
    Except WErr Workload :=
  let g := gatedEnv env workloadType
  let m := resolvedSingleIndex env workloadType
  match idxLookup m workloadName with
  | none => .error (NewNotFound workloadName "Kiali" "Workload")
  | some ctype =>
    match materializeSingle g workloadName ctype (pickControllerType ctype workloadType) with
    | some w => .ok w
    | none => .error (NewNotFound workloadName "Kiali" "Workload")

/-! ## Lemmas about the index operations -/

theorem idxLookup_insert_self (m : CIndex) (k v : String) :
    idxLookup (idxInsert m k v) k = some v := by
  induction m with
  | nil => simp [idxInsert, idxLookup]
  | cons hd tl ih =>
    obtain ⟨k0, v0⟩ := hd
    by_cases h : k0 = k
    · simp [idxInsert, idxLookup, h]
    · simp [idxInsert, idxLookup, h, ih]

theorem idxLookup_insert_ne (m : CIndex) {k k' : String} (v : String) (h : k' ≠ k) :
    idxLookup (idxInsert m k v) k' = idxLookup m k' := by
  have hkk : k ≠ k' := Ne.symm h
  induction m with
  | nil => simp [idxInsert, idxLookup, hkk]
  | cons hd tl ih =>
    obtain ⟨k0, v0⟩ := hd
    by_cases h0 : k0 = k
    · subst h0
      simp [idxInsert, idxLookup, hkk]
    · by_cases h1 : k0 = k'
      · subst h1
        simp [idxInsert, idxLookup, h0]
      · simp [idxInsert, idxLookup, h0, h1, ih]

theorem idxLookup_erase_self (m : CIndex) (k : String) :
    idxLookup (idxErase m k) k = none := by
  induction m with
  | nil => simp [idxErase, idxLookup]
  | cons hd tl ih =>
    obtain ⟨k0, v0⟩ := hd
    by_cases h : k0 = k
    · simp [idxErase, h, ih]
    · simp [idxErase, idxLookup, h, ih]

theorem idxLookup_erase_ne (m : CIndex) {k k' : String} (h : k' ≠ k) :
    idxLookup (idxErase m k) k' = idxLookup m k' := by
  have hkk : k ≠ k' := Ne.symm h
  induction m with
  | nil => simp [idxErase]
  | cons hd tl ih =>
    obtain ⟨k0, v0⟩ := hd
    by_cases h0 : k0 = k
    · subst h0
      simp [idxErase, idxLookup, hkk, ih]
    · by_cases h1 : k0 = k'
      · subst h1
        simp [idxErase, idxLookup, h0]
      · simp [idxErase, idxLookup, h0, h1, ih]

theorem mergeController_lookup_ne (m : CIndex) {n n' : String} (kind : String)
    (h : n' ≠ n) : idxLookup (mergeController m n kind) n' = idxLookup m n' := by
  unfold mergeController
  cases idxLookup m n with
  | none => exact idxLookup_insert_ne m kind h
  | some k0 =>
    by_cases hk : k0 ≠ kind
    · simp [hk, idxLookup_insert_ne m _ h]
    · simp [hk]

theorem mergeController_lookup_agree (m : CIndex) (n v : String)
    (h : idxLookup m n = none ∨ idxLookup m n = some v) :
    idxLookup (mergeController m n v) n = some v := by
  unfold mergeController
  rcases h with h | h
  · simp [h, idxLookup_insert_self]
  · simp [h]

theorem mergeController_lookup_isSome (m : CIndex) (n kind : String) :
    (idxLookup (mergeController m n kind) n).isSome := by
  unfold mergeController
  cases h : idxLookup m n with
  | none => simp [idxLookup_insert_self]
  | some k0 =>
    by_cases hk : k0 ≠ kind
    · simp [hk, idxLookup_insert_self]
    · simp [hk, h]

/-! ### Keys and key uniqueness -/

theorem mem_idxKeys_iff_lookup (m : CIndex) (n : String) :
    n ∈ idxKeys m ↔ (idxLookup m n).isSome := by
  induction m with
  | nil => simp [idxKeys, idxLookup]
  | cons hd tl ih =>
    obtain ⟨k0, v0⟩ := hd
    by_cases h : k0 = n
    · simp [idxKeys, idxLookup, h]
    · have h' : ¬(n = k0) := fun hc => h hc.symm
      simpa [idxKeys, idxLookup, h, h'] using ih

theorem mem_idxKeys_cons (k0 v0 n : String) (tl : CIndex) :
    n ∈ idxKeys ((k0, v0) :: tl) ↔ n = k0 ∨ n ∈ idxKeys tl := by
  simp [idxKeys]

theorem mem_idxKeys_insert (m : CIndex) (k v n : String) :
    n ∈ idxKeys (idxInsert m k v) ↔ n ∈ idxKeys m ∨ n = k := by
  induction m with
  | nil => simp [idxInsert, idxKeys]
  | cons hd tl ih =>
    obtain ⟨k0, v0⟩ := hd
    by_cases h : k0 = k
    · subst h
      have hins : idxInsert ((k0, v0) :: tl) k0 v = (k0, v) :: tl := by
        simp [idxInsert]
      rw [hins, mem_idxKeys_cons, mem_idxKeys_cons]
      tauto
    · have hins : idxInsert ((k0, v0) :: tl) k v = (k0, v0) :: idxInsert tl k v := by
        simp [idxInsert, h]
      rw [hins, mem_idxKeys_cons, mem_idxKeys_cons, ih]
      tauto

theorem idxKeys_erase (m : CIndex) (k : String) :
    idxKeys (idxErase m k) = (idxKeys m).filter (fun a => ¬(a = k)) := by
  induction m with
  | nil => simp [idxErase, idxKeys]
  | cons hd tl ih =>
    obtain ⟨k0, v0⟩ := hd
    by_cases h : k0 = k
    · subst h
      simpa [idxErase, idxKeys] using ih
    · simpa [idxErase, idxKeys, h] using ih

theorem idxNodup_insert (m : CIndex) (k v : String) (h : (idxKeys m).Nodup) :
    (idxKeys (idxInsert m k v)).Nodup := by
  induction m with
  | nil => simp [idxInsert, idxKeys]
  | cons hd tl ih =>
    obtain ⟨k0, v0⟩ := hd
    have hmem : ¬(k0 ∈ idxKeys tl) := by
      intro hc
      exact (List.nodup_cons.mp h).1 (by simpa [idxKeys] using hc)
    have htl : (idxKeys tl).Nodup := by
      have := (List.nodup_cons.mp h).2
      simpa [idxKeys] using this
    by_cases h0 : k0 = k
    · subst h0
      have hins : idxInsert ((k0, v0) :: tl) k0 v = (k0, v) :: tl := by
        simp [idxInsert]
      rw [hins]
      exact List.nodup_cons.mpr ⟨by simpa [idxKeys] using hmem, htl⟩
    · have hins : idxInsert ((k0, v0) :: tl) k v = (k0, v0) :: idxInsert tl k v := by
        simp [idxInsert, h0]
      rw [hins]
      refine List.nodup_cons.mpr ⟨?_, ih htl⟩
      intro hc
      rcases (mem_idxKeys_insert tl k v k0).mp hc with hc | hc
      · exact hmem hc
      · exact h0 hc

theorem idxNodup_erase (m : CIndex) (k : String) (h : (idxKeys m).Nodup) :
    (idxKeys (idxErase m k)).Nodup := by
  rw [idxKeys_erase]
  exact h.filter _

theorem idxNodup_merge (m : CIndex) (n kind : String) (h : (idxKeys m).Nodup) :
    (idxKeys (mergeController m n kind)).Nodup := by
  unfold mergeController
  cases idxLookup m n with
  | none => exact idxNodup_insert m n kind h
  | some k0 =>
    by_cases hk : k0 ≠ kind
    · simpa [hk] using idxNodup_insert m n _ h
    · simpa [hk] using h

/-! ### A generic left-fold invariant -/

theorem foldl_invariant {α β : Type} (f : β → α → β) (P : β → Prop) (l : List α) (b : β)
    (hb : P b) (hstep : ∀ b a, a ∈ l → P b → P (f b a)) : P (l.foldl f b) := by
  induction l generalizing b with
  | nil => exact hb
  | cons hd tl ih =>
    exact ih (f b hd) (hstep b hd (List.mem_cons_self _ _) hb)
      (fun b a ha hP => hstep b a (List.mem_cons_of_mem _ ha) hP)

/-! ### Lemmas about index building from pods -/

/-- Processing one pod preserves an existing entry whose name is hit by
no owner reference of the pod. -/
theorem buildIndexPod_pres_some {m : CIndex} {p : CorePod} {n v : String}
    (h : idxLookup m n = some v) (href : ∀ r ∈ p.ownerRefs, r.name ≠ n) :
    idxLookup (buildIndexPod m p) n = some v := by
  unfold buildIndexPod
  by_cases hlen : p.ownerRefs.length ≠ 0
  · simp only [hlen, if_true, if_pos hlen]
    refine foldl_invariant _ (fun m => idxLookup m n = some v) _ _ h ?_
    intro m r hr hP
    by_cases hc : r.controller
    · simpa [hc] using
        (mergeController_lookup_ne m r.kind (Ne.symm (href r hr))).trans hP
    · simpa [hc] using hP
  · simp only [if_neg hlen]
    by_cases hpn : p.name = n
    · rw [hpn, h]
      exact h
    · cases hl : idxLookup m p.name with
      | none => exact (idxLookup_insert_ne m "Pod" (Ne.symm hpn)).trans h
      | some k0 => exact h

/-- Value-shape invariant of index building: when every controller
reference of the pod hitting the name carries the given kind and the
name is the pod name only in the orphan-Pod role, the entry stays
absent-or-of-that-kind. -/
theorem buildIndexPod_keyQ {m : CIndex} {p : CorePod} {n v : String}
    (hkind : ∀ r ∈ p.ownerRefs, r.controller = true → r.name = n → r.kind = v)
    (hname : p.name = n → p.ownerRefs = [] → v = "Pod")
    (h : idxLookup m n = none ∨ idxLookup m n = some v) :
    idxLookup (buildIndexPod m p) n = none ∨ idxLookup (buildIndexPod m p) n = some v := by
  unfold buildIndexPod
  by_cases hlen : p.ownerRefs.length ≠ 0
  · simp only [if_pos hlen]
    refine foldl_invariant _
      (fun m => idxLookup m n = none ∨ idxLookup m n = some v) _ _ h ?_
    intro m r hr hP
    by_cases hc : r.controller
    · simp only [hc, if_true]
      by_cases hrn : r.name = n
      · right
        rw [hrn, hkind r hr hc hrn]
        exact mergeController_lookup_agree m n v hP
      · rcases hP with hP | hP
        · exact Or.inl ((mergeController_lookup_ne m r.kind (Ne.symm hrn)).trans hP)
        · exact Or.inr ((mergeController_lookup_ne m r.kind (Ne.symm hrn)).trans hP)
    · simpa [hc] using hP
  · simp only [if_neg hlen]
    have hempty : p.ownerRefs = [] := by
      simpa using hlen
    by_cases hpn : p.name = n
    · subst hpn
      cases hl : idxLookup m p.name with
      | none =>
        right
        show idxLookup (idxInsert m p.name "Pod") p.name = some v
        rw [idxLookup_insert_self, hname rfl hempty]
      | some k0 =>
        exact h
    · cases hl : idxLookup m p.name with
      | none =>
        rcases h with h | h
        · exact Or.inl ((idxLookup_insert_ne m "Pod" (Ne.symm hpn)).trans h)
        · exact Or.inr ((idxLookup_insert_ne m "Pod" (Ne.symm hpn)).trans h)
      | some k0 =>
        exact h

/-- A pod with no owner references records itself with kind Pod when its
name is absent or already of kind Pod. -/
theorem buildIndexPod_self_pod {m : CIndex} {p : CorePod} (h0 : p.ownerRefs = [])
    (h : idxLookup m p.name = none ∨ idxLookup m p.name = some "Pod") :
    idxLookup (buildIndexPod m p) p.name = some "Pod" := by
  unfold buildIndexPod
  rw [h0]
  simp only [List.length_nil, ne_eq, not_true_eq_false, if_false]
  rcases h with h | h
  · rw [h, idxLookup_insert_self]
  · rw [h]; exact h

/-- Index building preserves the absent-or-of-kind shape of a name over
a whole pod list. -/
theorem buildIndex_keyQ (pods : List CorePod) (n v : String)
    (hkind : ∀ q ∈ pods, ∀ r ∈ q.ownerRefs, r.controller = true → r.name = n → r.kind = v)
    (hname : ∀ q ∈ pods, q.name = n → q.ownerRefs = [] → v = "Pod") :
    idxLookup (buildIndex pods) n = none ∨ idxLookup (buildIndex pods) n = some v := by
  refine foldl_invariant _
    (fun m => idxLookup m n = none ∨ idxLookup m n = some v) _ _ (Or.inl rfl) ?_
  intro m q hq hP
  exact buildIndexPod_keyQ (hkind q hq) (hname q hq) hP

/-- An observed pod with zero owner references whose name no owner
reference hits ends up in the built index with kind Pod. -/
theorem buildIndex_orphan_pod {pods : List CorePod} {p : CorePod} (hp : p ∈ pods)
    (h0 : p.ownerRefs = [])
    (href : ∀ q ∈ pods, ∀ r ∈ q.ownerRefs, r.name ≠ p.name) :
    idxLookup (buildIndex pods) p.name = some "Pod" := by
  obtain ⟨l1, l2, hsplit⟩ := List.append_of_mem hp
  have h1 : ∀ q ∈ l1, q ∈ pods := fun q hq => by rw [hsplit]; exact List.mem_append_left _ hq
  have h2 : ∀ q ∈ l2, q ∈ pods := fun q hq => by
    rw [hsplit]; exact List.mem_append_right _ (List.mem_cons_of_mem _ hq)
  rw [hsplit]
  unfold buildIndex
  rw [List.foldl_append, List.foldl_cons]
  have hQ1 : idxLookup (l1.foldl buildIndexPod []) p.name = none ∨
      idxLookup (l1.foldl buildIndexPod []) p.name = some "Pod" := by
    refine foldl_invariant _
      (fun m => idxLookup m p.name = none ∨ idxLookup m p.name = some "Pod") _ _
      (Or.inl rfl) ?_
    intro m q hq hP
    refine buildIndexPod_keyQ ?_ (fun _ _ => rfl) hP
    intro r hr _ hrn
    exact absurd hrn (href q (h1 q hq) r hr)
  have hmid := buildIndexPod_self_pod h0 hQ1
  refine foldl_invariant _ (fun m => idxLookup m p.name = some "Pod") _ _ hmid ?_
  intro m q hq hP
  exact buildIndexPod_pres_some hP (fun r hr => href q (h2 q hq) r hr)

/-- Index building keeps the keys of the index free of duplicates. -/
theorem buildIndexPod_nodup {m : CIndex} {p : CorePod} (h : (idxKeys m).Nodup) :
    (idxKeys (buildIndexPod m p)).Nodup := by
  unfold buildIndexPod
  by_cases hlen : p.ownerRefs.length ≠ 0
  · simp only [if_pos hlen]
    refine foldl_invariant _ (fun m => (idxKeys m).Nodup) _ _ h ?_
    intro m r _ hP
    by_cases hc : r.controller
    · simpa [hc] using idxNodup_merge m r.name r.kind hP
    · simpa [hc] using hP
  · simp only [if_neg hlen]
    cases hl : idxLookup m p.name with
    | none => exact idxNodup_insert m p.name "Pod" h
    | some k0 => exact h

theorem buildIndex_nodup (pods : List CorePod) : (idxKeys (buildIndex pods)).Nodup := by
  refine foldl_invariant _ (fun m => (idxKeys m).Nodup) _ _ (by simp [idxKeys]) ?_
  intro m q _ hP
  exact buildIndexPod_nodup hP

/-! ### Lemmas about the resolution hop -/

/-- A property preserved by each child-resolution transformer is
preserved by the whole loop body for one visited name. -/
theorem hopName_P (repset repcon jbs conjbs : List KController) (m : CIndex)
    (cname : String) (P : CIndex → Prop)
    (hRS : ∀ m', P m' → P (hopChild repset m' cname))
    (hRC : ∀ m', P m' → P (hopChild repcon m' cname))
    (hJ : ∀ m', P m' → P (hopChildJob jbs conjbs m' cname))
    (h : P m) : P (hopName repset repcon jbs conjbs m cname) := by
  cases hm : idxLookup m cname with
  | none => simpa [hopName, hm] using h
  | some ctype =>
    simp only [hopName, hm]
    split_ifs with h1 h2 h3 <;>
      first
        | exact h
        | exact hRS _ h
        | exact hRC _ h
        | exact hJ _ h
        | exact hJ _ (hRS _ h)
        | exact hJ _ (hRC _ h)
        | exact hRC _ (hRS _ h)
        | exact hJ _ (hRC _ (hRS _ h))

/-- Resolving a child entry other than the observed name, where every
owner reference hitting the observed name carries the given kind,
preserves the value of the observed entry. -/
theorem hopChild_pres_some {objs : List KController} {m : CIndex} {cname n v : String}
    (hcn : cname ≠ n)
    (hkind : ∀ o ∈ objs, ∀ r ∈ o.ownerRefs, r.controller = true → r.name = n → r.kind = v)
    (h : idxLookup m n = some v) : idxLookup (hopChild objs m cname) n = some v := by
  unfold hopChild
  cases hf : objs.find? (fun o => o.name == cname) with
  | none => exact h
  | some o =>
    have ho : o ∈ objs := List.mem_of_find?_eq_some hf
    refine foldl_invariant _ (fun m' => idxLookup m' n = some v) _ _ h ?_
    intro m' r hr hP
    by_cases hc : r.controller = true
    · rw [if_pos hc, idxLookup_erase_ne _ (Ne.symm hcn)]
      by_cases hrn : r.name = n
      · rw [hrn, hkind o ho r hr hc hrn]
        exact mergeController_lookup_agree m' n v (Or.inr hP)
      · rw [mergeController_lookup_ne m' r.kind (Ne.symm hrn)]
        exact hP
    · rw [if_neg hc]
      exact hP

/-- Job variant of hopChild_pres_some: the erase is conditional on the
cron-job existing, which does not affect another entry. -/
theorem hopChildJob_pres_some {jbs conjbs : List KController} {m : CIndex}
    {cname n v : String} (hcn : cname ≠ n)
    (hkind : ∀ o ∈ jbs, ∀ r ∈ o.ownerRefs, r.controller = true → r.name = n → r.kind = v)
    (h : idxLookup m n = some v) :
    idxLookup (hopChildJob jbs conjbs m cname) n = some v := by
  unfold hopChildJob
  cases hf : jbs.find? (fun o => o.name == cname) with
  | none => exact h
  | some jb =>
    have ho : jb ∈ jbs := List.mem_of_find?_eq_some hf
    refine foldl_invariant _ (fun m' => idxLookup m' n = some v) _ _ h ?_
    intro m' r hr hP
    by_cases hc : r.controller = true
    · rw [if_pos hc]
      have hmerge : idxLookup (mergeController m' r.name r.kind) n = some v := by
        by_cases hrn : r.name = n
        · rw [hrn, hkind jb ho r hr hc hrn]
          exact mergeController_lookup_agree m' n v (Or.inr hP)
        · rw [mergeController_lookup_ne m' r.kind (Ne.symm hrn)]
          exact hP
      by_cases ha : conjbs.any (fun c => c.name == r.name) = true
      · simp only [ha, if_true]
        rw [idxLookup_erase_ne _ (Ne.symm hcn)]
        exact hmerge
      · simp only [ha, if_false]
        exact hmerge
    · rw [if_neg hc]
      exact hP

/-- Absent-or-of-kind variant of hopChild_pres_some. -/
theorem hopChild_keyQ {objs : List KController} {m : CIndex} {cname n v : String}
    (hcn : cname ≠ n)
    (hkind : ∀ o ∈ objs, ∀ r ∈ o.ownerRefs, r.controller = true → r.name = n → r.kind = v)
    (h : idxLookup m n = none ∨ idxLookup m n = some v) :
    idxLookup (hopChild objs m cname) n = none ∨
      idxLookup (hopChild objs m cname) n = some v := by
  unfold hopChild
  cases hf : objs.find? (fun o => o.name == cname) with
  | none => exact h
  | some o =>
    have ho : o ∈ objs := List.mem_of_find?_eq_some hf
    refine foldl_invariant _
      (fun m' => idxLookup m' n = none ∨ idxLookup m' n = some v) _ _ h ?_
    intro m' r hr hP
    by_cases hc : r.controller = true
    · rw [if_pos hc]
      by_cases hrn : r.name = n
      · right
        rw [idxLookup_erase_ne _ (Ne.symm hcn), hrn, hkind o ho r hr hc hrn]
        exact mergeController_lookup_agree m' n v hP
      · rcases hP with hP | hP
        · exact Or.inl (by
            rw [idxLookup_erase_ne _ (Ne.symm hcn),
              mergeController_lookup_ne m' r.kind (Ne.symm hrn)]
            exact hP)
        · exact Or.inr (by
            rw [idxLookup_erase_ne _ (Ne.symm hcn),
              mergeController_lookup_ne m' r.kind (Ne.symm hrn)]
            exact hP)
    · rw [if_neg hc]
      exact hP

/-- Absent-or-of-kind variant for the job branch. -/
theorem hopChildJob_keyQ {jbs conjbs : List KController} {m : CIndex} {cname n v : String}
    (hcn : cname ≠ n)
    (hkind : ∀ o ∈ jbs, ∀ r ∈ o.ownerRefs, r.controller = true → r.name = n → r.kind = v)
    (h : idxLookup m n = none ∨ idxLookup m n = some v) :
    idxLookup (hopChildJob jbs conjbs m cname) n = none ∨
      idxLookup (hopChildJob jbs conjbs m cname) n = some v := by
  unfold hopChildJob
  cases hf : jbs.find? (fun o => o.name == cname) with
  | none => exact h
  | some jb =>
    have ho : jb ∈ jbs := List.mem_of_find?_eq_some hf
    refine foldl_invariant _
      (fun m' => idxLookup m' n = none ∨ idxLookup m' n = some v) _ _ h ?_
    intro m' r hr hP
    by_cases hc : r.controller = true
    · rw [if_pos hc]
      have hmerge : idxLookup (mergeController m' r.name r.kind) n = none ∨
          idxLookup (mergeController m' r.name r.kind) n = some v := by
        by_cases hrn : r.name = n
        · right
          rw [hrn, hkind jb ho r hr hc hrn]
          exact mergeController_lookup_agree m' n v hP
        · rcases hP with hP | hP
          · exact Or.inl ((mergeController_lookup_ne m' r.kind (Ne.symm hrn)).trans hP)
          · exact Or.inr ((mergeController_lookup_ne m' r.kind (Ne.symm hrn)).trans hP)
      by_cases ha : conjbs.any (fun c => c.name == r.name) = true
      · simp only [ha, if_true]
        rcases hmerge with hm' | hm'
        · exact Or.inl (by rw [idxLookup_erase_ne _ (Ne.symm hcn)]; exact hm')
        · exact Or.inr (by rw [idxLookup_erase_ne _ (Ne.symm hcn)]; exact hm')
      · simp only [ha, if_false]
        exact hmerge
    · rw [if_neg hc]
      exact hP

/-- With no owner reference of the child lists hitting the observed
name, resolving another entry leaves its lookup unchanged. -/
theorem hopChild_lookup_pres {objs : List KController} {m : CIndex} {cname n : String}
    (hcn : cname ≠ n) (href : ∀ o ∈ objs, ∀ r ∈ o.ownerRefs, r.name ≠ n) :
    idxLookup (hopChild objs m cname) n = idxLookup m n := by
  unfold hopChild
  cases hf : objs.find? (fun o => o.name == cname) with
  | none => rfl
  | some o =>
    have ho : o ∈ objs := List.mem_of_find?_eq_some hf
    refine foldl_invariant _ (fun m' => idxLookup m' n = idxLookup m n) _ _ rfl ?_
    intro m' r hr hP
    by_cases hc : r.controller = true
    · rw [if_pos hc, idxLookup_erase_ne _ (Ne.symm hcn),
        mergeController_lookup_ne m' r.kind (Ne.symm (href o ho r hr))]
      exact hP
    · rw [if_neg hc]
      exact hP

/-- Job variant of hopChild_lookup_pres. -/
theorem hopChildJob_lookup_pres {jbs conjbs : List KController} {m : CIndex}
    {cname n : String} (hcn : cname ≠ n)
    (href : ∀ o ∈ jbs, ∀ r ∈ o.ownerRefs, r.name ≠ n) :
    idxLookup (hopChildJob jbs conjbs m cname) n = idxLookup m n := by
  unfold hopChildJob
  cases hf : jbs.find? (fun o => o.name == cname) with
  | none => rfl
  | some jb =>
    have ho : jb ∈ jbs := List.mem_of_find?_eq_some hf
    refine foldl_invariant _ (fun m' => idxLookup m' n = idxLookup m n) _ _ rfl ?_
    intro m' r hr hP
    by_cases hc : r.controller = true
    · rw [if_pos hc]
      have hmerge : idxLookup (mergeController m' r.name r.kind) n = idxLookup m n := by
        rw [mergeController_lookup_ne m' r.kind (Ne.symm (href jb ho r hr))]
        exact hP
      by_cases ha : conjbs.any (fun c => c.name == r.name) = true
      · simp only [ha, if_true]
        rw [idxLookup_erase_ne _ (Ne.symm hcn)]
        exact hmerge
      · simp only [ha, if_false]
        exact hmerge
    · rw [if_neg hc]
      exact hP

/-- Visiting a name that is absent from the index changes nothing. -/
theorem hopName_absent {repset repcon jbs conjbs : List KController} {m : CIndex}
    {cname : String} (h : idxLookup m cname = none) :
    hopName repset repcon jbs conjbs m cname = m := by
  simp [hopName, h]

/-- Visiting a name whose kind is none of the three child kinds changes
nothing. -/
theorem hopName_not_child {repset repcon jbs conjbs : List KController} {m : CIndex}
    {cname v : String} (h : idxLookup m cname = some v) (hv1 : v ≠ "ReplicaSet")
    (hv2 : v ≠ "ReplicationController") (hv3 : v ≠ "Job") :
    hopName repset repcon jbs conjbs m cname = m := by
  simp [hopName, h, hv1, hv2, hv3]

/-- Folding the loop body over any name list preserves an entry whose
kind is none of the child kinds, when every owner reference of the child
lists hitting the entry name carries that same kind. -/
theorem foldl_hopName_pres_some {repset repcon jbs conjbs : List KController}
    {names : List String} {m : CIndex} {n v : String}
    (hv1 : v ≠ "ReplicaSet") (hv2 : v ≠ "ReplicationController") (hv3 : v ≠ "Job")
    (hkRS : ∀ o ∈ repset, ∀ r ∈ o.ownerRefs, r.controller = true → r.name = n → r.kind = v)
    (hkRC : ∀ o ∈ repcon, ∀ r ∈ o.ownerRefs, r.controller = true → r.name = n → r.kind = v)
    (hkJ : ∀ o ∈ jbs, ∀ r ∈ o.ownerRefs, r.controller = true → r.name = n → r.kind = v)
    (h : idxLookup m n = some v) :
    idxLookup (names.foldl (hopName repset repcon jbs conjbs) m) n = some v := by
  refine foldl_invariant _ (fun m' => idxLookup m' n = some v) _ _ h ?_
  intro m' a _ hP
  by_cases han : a = n
  · rw [han, hopName_not_child hP hv1 hv2 hv3]
    exact hP
  · exact hopName_P repset repcon jbs conjbs m' a (fun m'' => idxLookup m'' n = some v)
      (fun m'' hp => hopChild_pres_some han hkRS hp)
      (fun m'' hp => hopChild_pres_some han hkRC hp)
      (fun m'' hp => hopChildJob_pres_some han hkJ hp) hP

/-- Absent-or-of-kind variant of the fold preservation, for a kind that
is none of the child kinds. -/
theorem foldl_hopName_keyQ {repset repcon jbs conjbs : List KController}
    {names : List String} {m : CIndex} {n v : String}
    (hv1 : v ≠ "ReplicaSet") (hv2 : v ≠ "ReplicationController") (hv3 : v ≠ "Job")
    (hkRS : ∀ o ∈ repset, ∀ r ∈ o.ownerRefs, r.controller = true → r.name = n → r.kind = v)
    (hkRC : ∀ o ∈ repcon, ∀ r ∈ o.ownerRefs, r.controller = true → r.name = n → r.kind = v)
    (hkJ : ∀ o ∈ jbs, ∀ r ∈ o.ownerRefs, r.controller = true → r.name = n → r.kind = v)
    (h : idxLookup m n = none ∨ idxLookup m n = some v) :
    idxLookup (names.foldl (hopName repset repcon jbs conjbs) m) n = none ∨
      idxLookup (names.foldl (hopName repset repcon jbs conjbs) m) n = some v := by
  refine foldl_invariant _
    (fun m' => idxLookup m' n = none ∨ idxLookup m' n = some v) _ _ h ?_
  intro m' a _ hP
  by_cases han : a = n
  · subst han
    rcases hP with hP | hP
    · rw [hopName_absent hP]
      exact Or.inl hP
    · rw [hopName_not_child hP hv1 hv2 hv3]
      exact Or.inr hP
  · exact hopName_P repset repcon jbs conjbs m' a
      (fun m'' => idxLookup m'' n = none ∨ idxLookup m'' n = some v)
      (fun m'' hp => hopChild_keyQ han hkRS hp)
      (fun m'' hp => hopChild_keyQ han hkRC hp)
      (fun m'' hp => hopChildJob_keyQ han hkJ hp) hP

/-- Folding the loop body over any name list leaves the lookup of a name
unchanged when no owner reference of the child lists hits it and the
name itself stays absent or out of the child kinds.  Specialized here to
a name that is currently absent: it stays absent. -/
theorem foldl_hopName_pres_none {repset repcon jbs conjbs : List KController}
    {names : List String} {m : CIndex} {n : String}
    (hrRS : ∀ o ∈ repset, ∀ r ∈ o.ownerRefs, r.name ≠ n)
    (hrRC : ∀ o ∈ repcon, ∀ r ∈ o.ownerRefs, r.name ≠ n)
    (hrJ : ∀ o ∈ jbs, ∀ r ∈ o.ownerRefs, r.name ≠ n)
    (h : idxLookup m n = none) :
    idxLookup (names.foldl (hopName repset repcon jbs conjbs) m) n = none := by
  refine foldl_invariant _ (fun m' => idxLookup m' n = none) _ _ h ?_
  intro m' a _ hP
  by_cases han : a = n
  · rw [han, hopName_absent hP]
    exact hP
  · exact hopName_P repset repcon jbs conjbs m' a (fun m'' => idxLookup m'' n = none)
      (fun m'' hp => (hopChild_lookup_pres han hrRS).trans hp)
      (fun m'' hp => (hopChild_lookup_pres han hrRC).trans hp)
      (fun m'' hp => (hopChildJob_lookup_pres han hrJ).trans hp) hP

/-- Folding the loop body over names that differ from the observed name
leaves its lookup unchanged when no owner reference of the child lists
hits it. -/
theorem foldl_hopName_ne_pres {repset repcon jbs conjbs : List KController}
    {names : List String} {m : CIndex} {n : String} (hnames : ∀ a ∈ names, a ≠ n)
    (hrRS : ∀ o ∈ repset, ∀ r ∈ o.ownerRefs, r.name ≠ n)
    (hrRC : ∀ o ∈ repcon, ∀ r ∈ o.ownerRefs, r.name ≠ n)
    (hrJ : ∀ o ∈ jbs, ∀ r ∈ o.ownerRefs, r.name ≠ n) :
    idxLookup (names.foldl (hopName repset repcon jbs conjbs) m) n = idxLookup m n := by
  refine foldl_invariant _ (fun m' => idxLookup m' n = idxLookup m n) _ _ rfl ?_
  intro m' a ha hP
  exact hopName_P repset repcon jbs conjbs m' a
    (fun m'' => idxLookup m'' n = idxLookup m n)
    (fun m'' hp => (hopChild_lookup_pres (hnames a ha) hrRS).trans hp)
    (fun m'' hp => (hopChild_lookup_pres (hnames a ha) hrRC).trans hp)
    (fun m'' hp => (hopChildJob_lookup_pres (hnames a ha) hrJ).trans hp) hP

/-- The loop body at a replica-set entry whose live object carries one
controller-owning owner reference: the parent is merged and the child
entry deleted (workloads.go 638-652). -/
theorem hopName_rs_step {repset repcon jbs conjbs : List KController} {m : CIndex}
    {rsname pname pkind : String} {rs : KController}
    (hl : idxLookup m rsname = some "ReplicaSet")
    (hf : repset.find? (fun o => o.name == rsname) = some rs)
    (hrefs : rs.ownerRefs = [⟨pname, pkind, true⟩]) :
    hopName repset repcon jbs conjbs m rsname =
      idxErase (mergeController m pname pkind) rsname := by
  simp [hopName, hl, hopChild, hf, hrefs]

/-- The loop body at a job entry whose live object carries one
controller-owning owner reference: the parent is merged, and the child
entry deleted only when a cron-job of the parent name was fetched
(workloads.go 680-716). -/
theorem hopName_job_step {repset repcon jbs conjbs : List KController} {m : CIndex}
    {jname pname pkind : String} {jb : KController}
    (hl : idxLookup m jname = some "Job")
    (hf : jbs.find? (fun o => o.name == jname) = some jb)
    (hrefs : jb.ownerRefs = [⟨pname, pkind, true⟩]) :
    hopName repset repcon jbs conjbs m jname =
      if conjbs.any (fun c => c.name == pname) then
        idxErase (mergeController m pname pkind) jname
      else mergeController m pname pkind := by
  simp [hopName, hl, hopChildJob, hf, hrefs]

/-! ### Key uniqueness through the hop and orphan completion -/

theorem hopChild_nodup {objs : List KController} {m : CIndex} {cname : String}
    (h : (idxKeys m).Nodup) : (idxKeys (hopChild objs m cname)).Nodup := by
  unfold hopChild
  cases objs.find? (fun o => o.name == cname) with
  | none => exact h
  | some o =>
    refine foldl_invariant _ (fun m' => (idxKeys m').Nodup) _ _ h ?_
    intro m' r _ hP
    by_cases hc : r.controller = true
    · rw [if_pos hc]
      exact idxNodup_erase _ _ (idxNodup_merge _ _ _ hP)
    · rw [if_neg hc]
      exact hP

theorem hopChildJob_nodup {jbs conjbs : List KController} {m : CIndex} {cname : String}
    (h : (idxKeys m).Nodup) : (idxKeys (hopChildJob jbs conjbs m cname)).Nodup := by
  unfold hopChildJob
  cases jbs.find? (fun o => o.name == cname) with
  | none => exact h
  | some jb =>
    refine foldl_invariant _ (fun m' => (idxKeys m').Nodup) _ _ h ?_
    intro m' r _ hP
    by_cases hc : r.controller = true
    · rw [if_pos hc]
      by_cases ha : conjbs.any (fun c => c.name == r.name) = true
      · simp only [ha, if_true]
        exact idxNodup_erase _ _ (idxNodup_merge _ _ _ hP)
      · simp only [ha, if_false]
        exact idxNodup_merge _ _ _ hP
    · rw [if_neg hc]
      exact hP

theorem resolveHop_nodup {repset repcon jbs conjbs : List KController} {m : CIndex}
    (h : (idxKeys m).Nodup) :
    (idxKeys (resolveHop repset repcon jbs conjbs m)).Nodup := by
  refine foldl_invariant _ (fun m' => (idxKeys m').Nodup) _ _ h ?_
  intro m' a _ hP
  exact hopName_P repset repcon jbs conjbs m' a (fun m'' => (idxKeys m'').Nodup)
    (fun _ hp => hopChild_nodup hp) (fun _ hp => hopChild_nodup hp)
    (fun _ hp => hopChildJob_nodup hp) hP

/-! ### Lemmas about orphan completion -/

/-- An orphan pass never alters a present entry. -/
theorem orphanPass_pres_some {sel : Option Labels} {nno : Bool} {kind : String}
    {objs : List KController} {m : CIndex} {n v : String}
    (h : idxLookup m n = some v) :
    idxLookup (orphanPass sel nno kind objs m) n = some v := by
  refine foldl_invariant _ (fun m' => idxLookup m' n = some v) _ _ h ?_
  intro m' o _ hP
  by_cases hco : idxLookup m' o.name = none ∧ (nno = true → o.ownerRefs = []) ∧
      selectorCheck sel o = true
  · rw [if_pos hco]
    have hne : o.name ≠ n := fun hc => by
      rw [hc, hP] at hco
      exact absurd hco.1 (by simp)
    rw [idxLookup_insert_ne _ _ (Ne.symm hne)]
    exact hP
  · rw [if_neg hco]
    exact hP

/-- An orphan pass never removes a present entry (weak form:
present stays present). -/
theorem orphanPass_pres_isSome {sel : Option Labels} {nno : Bool} {kind : String}
    {objs : List KController} {m : CIndex} {n : String}
    (h : (idxLookup m n).isSome = true) :
    (idxLookup (orphanPass sel nno kind objs m) n).isSome = true := by
  cases hv : idxLookup m n with
  | none => rw [hv] at h; cases h
  | some v => rw [orphanPass_pres_some hv]; rfl

/-- Orphan completion never alters a present entry (workloads.go
719-781: each loop only inserts names that are absent). -/
theorem orphanComplete_pres_some {sel : Option Labels} {D : FetchLists} {m : CIndex}
    {n v : String} (h : idxLookup m n = some v) :
    idxLookup (orphanComplete sel D m) n = some v := by
  unfold orphanComplete
  exact orphanPass_pres_some (orphanPass_pres_some (orphanPass_pres_some
    (orphanPass_pres_some (orphanPass_pres_some (orphanPass_pres_some h)))))

/-- One orphan pass adds an eligible object: afterwards its name is
present. -/
theorem orphanPass_adds {sel : Option Labels} {nno : Bool} {kind : String}
    {objs : List KController} {m : CIndex} {o : KController} (ho : o ∈ objs)
    (hnno : nno = true → o.ownerRefs = []) (hsel : selectorCheck sel o = true) :
    (idxLookup (orphanPass sel nno kind objs m) o.name).isSome = true := by
  obtain ⟨l1, l2, hsplit⟩ := List.append_of_mem ho
  rw [hsplit]
  unfold orphanPass
  rw [List.foldl_append, List.foldl_cons]
  set m1 := l1.foldl _ m with hm1
  have hmid : (idxLookup
      (if idxLookup m1 o.name = none ∧ (nno = true → o.ownerRefs = []) ∧
          selectorCheck sel o = true then idxInsert m1 o.name kind else m1)
      o.name).isSome = true := by
    cases hv : idxLookup m1 o.name with
    | none =>
      rw [if_pos ⟨rfl, hnno, hsel⟩, idxLookup_insert_self]
      rfl
    | some v =>
      rw [if_neg (by simp), hv]
      rfl
  refine foldl_invariant _ (fun m' => (idxLookup m' o.name).isSome = true) _ _ hmid ?_
  intro m' q _ hP
  by_cases hco : idxLookup m' q.name = none ∧ (nno = true → q.ownerRefs = []) ∧
      selectorCheck sel q = true
  · rw [if_pos hco]
    have hne : q.name ≠ o.name := fun hc => by
      rw [hc] at hco
      rcases hv : idxLookup m' o.name with _ | v
      · rw [hv] at hP; cases hP
      · rw [hv] at hco; exact absurd hco.1 (by simp)
    cases hv : idxLookup m' o.name with
    | none => rw [hv] at hP; cases hP
    | some v => rw [idxLookup_insert_ne _ _ (Ne.symm hne), hv]; rfl
  · rw [if_neg hco]
    exact hP

/-- Inversion of one orphan pass: a value found afterwards was either
already present, or is the kind of the pass and stems from an eligible
object of the pass. -/
theorem orphanPass_lookup_inv {sel : Option Labels} {nno : Bool} {kind : String}
    {objs : List KController} {m : CIndex} {n v : String}
    (h : idxLookup (orphanPass sel nno kind objs m) n = some v) :
    idxLookup m n = some v ∨
      (v = kind ∧ ∃ o ∈ objs, o.name = n ∧ (nno = true → o.ownerRefs = []) ∧
        selectorCheck sel o = true) := by
  induction objs generalizing m with
  | nil => exact Or.inl h
  | cons o rest ih =>
    have h' : idxLookup (orphanPass sel nno kind rest
        (if idxLookup m o.name = none ∧ (nno = true → o.ownerRefs = []) ∧
            selectorCheck sel o = true then idxInsert m o.name kind else m)) n = some v := h
    rcases ih h' with hbase | ⟨hv, o', ho', rest'⟩
    · by_cases hco : idxLookup m o.name = none ∧ (nno = true → o.ownerRefs = []) ∧
          selectorCheck sel o = true
      · rw [if_pos hco] at hbase
        by_cases hon : o.name = n
        · right
          rw [hon, idxLookup_insert_self] at hbase
          refine ⟨(Option.some.injEq _ _).mp hbase.symm ▸ rfl, o,
            List.mem_cons_self _ _, hon, hco.2.1, hco.2.2⟩
        · left
          rwa [idxLookup_insert_ne _ _ (Ne.symm hon)] at hbase
      · rw [if_neg hco] at hbase
        exact Or.inl hbase
    · exact Or.inr ⟨hv, o', List.mem_cons_of_mem _ ho', rest'⟩

/-- An orphan pass keeps index keys free of duplicates. -/
theorem orphanPass_nodup {sel : Option Labels} {nno : Bool} {kind : String}
    {objs : List KController} {m : CIndex} (h : (idxKeys m).Nodup) :
    (idxKeys (orphanPass sel nno kind objs m)).Nodup := by
  refine foldl_invariant _ (fun m' => (idxKeys m').Nodup) _ _ h ?_
  intro m' o _ hP
  by_cases hco : idxLookup m' o.name = none ∧ (nno = true → o.ownerRefs = []) ∧
      selectorCheck sel o = true
  · rw [if_pos hco]
    exact idxNodup_insert _ _ _ hP
  · rw [if_neg hco]
    exact hP

theorem orphanComplete_nodup {sel : Option Labels} {D : FetchLists} {m : CIndex}
    (h : (idxKeys m).Nodup) : (idxKeys (orphanComplete sel D m)).Nodup := by
  unfold orphanComplete
  exact orphanPass_nodup (orphanPass_nodup (orphanPass_nodup (orphanPass_nodup
    (orphanPass_nodup (orphanPass_nodup h)))))

/-- The keys of the final index of fetchWorkloads are free of
duplicates. -/
theorem finalIndex_nodup (D : FetchLists) (sel : Option Labels) :
    (idxKeys (finalIndex D sel)).Nodup := by
  unfold finalIndex
  exact orphanComplete_nodup (resolveHop_nodup (buildIndex_nodup D.pods))

/-! ### Lemmas about materialization and the output list -/

theorem materializeKind_name {objs : List KController} {kind c : String}
    {pods : List CorePod} {w : Workload} (h : materializeKind objs kind c pods = some w) :
    w.name = c ∧ w.wtype = kind := by
  unfold materializeKind at h
  cases hf : objs.find? (fun o => o.name == c) with
  | none => rw [hf] at h; cases h
  | some o =>
    rw [hf] at h
    injection h with h
    subst h
    exact ⟨rfl, rfl⟩

set_option maxHeartbeats 1000000

/-- Every materialized workload is named after its index entry. -/
theorem materializeOne_name {D : FetchLists} {m : CIndex} {c : String} {w : Workload}
    (h : materializeOne D m c = some w) : w.name = c := by
  cases hm : idxLookup m c with
  | none => simp [materializeOne, hm] at h
  | some ctype =>
    simp only [materializeOne, hm] at h
    split_ifs at h with h1 h2 h3 h4 h5 h6 h7 h8 h9 h10
    · exact (materializeKind_name h).1
    · exact (materializeKind_name h).1
    · exact (materializeKind_name h).1
    · exact (materializeKind_name h).1
    · exact (materializeKind_name h).1
    · cases hf : D.pods.find? (fun p => p.name == c) with
      | none => rw [hf] at h; cases h
      | some p =>
        rw [hf] at h
        injection h with h
        subst h
        rfl
    · exact (materializeKind_name h).1
    · exact (materializeKind_name h).1
    · exact (materializeKind_name h).1
    · injection h with h
      subst h
      rfl
    · injection h with h
      subst h
      rfl

set_option maxHeartbeats 200000

/-- Membership in the output of fetchWorkloads is membership of a
materialized entry of the final index. -/
theorem mem_fetchWorkloadsPure {D : FetchLists} {sel : Option Labels} {w : Workload} :
    w ∈ fetchWorkloadsPure D sel ↔
      ∃ c ∈ idxKeys (finalIndex D sel), materializeOne D (finalIndex D sel) c = some w := by
  unfold fetchWorkloadsPure
  rw [List.mem_filterMap]
  constructor
  · rintro ⟨c, hc, hm⟩
    exact ⟨c, (List.perm_insertionSort _ _).mem_iff.mp hc, hm⟩
  · rintro ⟨c, hc, hm⟩
    exact ⟨c, (List.perm_insertionSort _ _).mem_iff.mpr hc, hm⟩

theorem filterMap_filter_eq {f : String → Option Workload} {l : List String} {n : String}
    (hf : ∀ c w, f c = some w → w.name = c) :
    (l.filterMap f).filter (fun w => w.name = n) = (l.filter (fun c => c = n)).filterMap f := by
  induction l with
  | nil => rfl
  | cons hd tl ih =>
    by_cases hn : hd = n
    · subst hn
      cases hfd : f hd with
      | none => simp [List.filterMap_cons, hfd, ih]
      | some w =>
        have hw : w.name = hd := hf hd w hfd
        simp [List.filterMap_cons, hfd, hw, ih]
    · cases hfd : f hd with
      | none => simp [List.filterMap_cons, hfd, hn, ih]
      | some w =>
        have hw : ¬(w.name = n) := by rw [hf hd w hfd]; exact hn
        simp [List.filterMap_cons, hfd, hn, hw, ih]

theorem filter_eq_nil_of_not_mem {l : List String} {n : String} (h : ¬(n ∈ l)) :
    l.filter (fun c => c = n) = [] := by
  induction l with
  | nil => rfl
  | cons hd tl ih =>
    have hne : ¬(hd = n) := fun hc => h (hc ▸ List.mem_cons_self _ _)
    simp only [List.filter_cons]
    rw [if_neg (by simpa using hne)]
    exact ih (fun hc => h (List.mem_cons_of_mem _ hc))

theorem filter_eq_singleton {l : List String} {n : String} (hd : l.Nodup) (hm : n ∈ l) :
    l.filter (fun c => c = n) = [n] := by
  induction l with
  | nil => cases hm
  | cons a tl ih =>
    by_cases han : a = n
    · subst han
      simp only [List.filter_cons]
      rw [if_pos (by simp)]
      rw [filter_eq_nil_of_not_mem (List.nodup_cons.mp hd).1]
    · simp only [List.filter_cons]
      rw [if_neg (by simpa using han)]
      exact ih (List.nodup_cons.mp hd).2
        (by rcases List.mem_cons.mp hm with h | h; exact absurd h.symm han; exact h)

/-- When a name of the final index materializes, the output of
fetchWorkloads filtered to that name is exactly that workload. -/
theorem fetchWorkloadsPure_filter_name {D : FetchLists} {sel : Option Labels} {n : String}
    {w : Workload} (hmem : n ∈ idxKeys (finalIndex D sel))
    (hmat : materializeOne D (finalIndex D sel) n = some w) :
    (fetchWorkloadsPure D sel).filter (fun x => x.name = n) = [w] := by
  unfold fetchWorkloadsPure
  rw [filterMap_filter_eq (fun c w h => materializeOne_name h)]
  rw [filter_eq_singleton
    ((List.perm_insertionSort _ _).nodup_iff.mpr (finalIndex_nodup D sel))
    ((List.perm_insertionSort _ _).mem_iff.mpr hmem)]
  simp [List.filterMap_cons, hmat]

/-- An orphan pass keeps a name absent when every object of that name is
blocked by the pass conditions. -/
theorem orphanPass_pres_none {sel : Option Labels} {nno : Bool} {kind : String}
    {objs : List KController} {m : CIndex} {n : String} (h : idxLookup m n = none)
    (hblock : ∀ o ∈ objs, o.name = n →
      ¬((nno = true → o.ownerRefs = []) ∧ selectorCheck sel o = true)) :
    idxLookup (orphanPass sel nno kind objs m) n = none := by
  refine foldl_invariant _ (fun m' => idxLookup m' n = none) _ _ h ?_
  intro m' o ho hP
  by_cases hco : idxLookup m' o.name = none ∧ (nno = true → o.ownerRefs = []) ∧
      selectorCheck sel o = true
  · rw [if_pos hco]
    have hne : o.name ≠ n := fun hc => hblock o ho hc ⟨hco.2.1, hco.2.2⟩
    rw [idxLookup_insert_ne _ _ (Ne.symm hne)]
    exact hP
  · rw [if_neg hco]
    exact hP

/-! ## Basic facts about controllerPriority -/

theorem effectiveOrder_of_none {u : String} (hu : controllerOrder u = none) :
    effectiveOrder u = 0 := by
  simp [effectiveOrder, hu]

theorem effectiveOrder_of_some {r : String} {n : Int} (hr : controllerOrder r = some n) :
    effectiveOrder r = n := by
  simp [effectiveOrder, hr]

/-! ## Claim C4 -/

/-- Claim C4, counterexample: the claim states that a kind absent from
the rank table loses to every ranked kind, so controllerPriority of the
unranked kind Rollout against the ranked kind Pod would have to return
Pod; the code returns Rollout, because a missing Go map key reads as the
zero value 0, which is greater than the rank -1 of Pod. -/
theorem claim_C4_counterexample :
    controllerOrder "Rollout" = none ∧ controllerOrder "Pod" = some (-1) ∧
      controllerPriority "Rollout" "Pod" = "Rollout" ∧
      controllerPriority "Pod" "Rollout" = "Rollout" := by
  refine ⟨rfl, rfl, by decide, by decide⟩

/-- Claim C4, amended: controllerPriority implements the fixed rank
table Deployment=6, DeploymentConfig=5, ReplicaSet=4,
ReplicationController=3, StatefulSet=2, Job=1, DaemonSet=0, Pod=-1 and
returns the higher-ranked argument; a kind absent from the rank table is
treated as rank 0 (the Go zero value for a missing map key, the same
rank as DaemonSet): it loses in either position to every kind of rank at
least 1, beats Pod in either position, and against DaemonSet the first
argument wins. -/
theorem claim_C4 (u : String) (hu : controllerOrder u = none) :
    (controllerOrder "Deployment" = some 6 ∧ controllerOrder "DeploymentConfig" = some 5 ∧
      controllerOrder "ReplicaSet" = some 4 ∧
      controllerOrder "ReplicationController" = some 3 ∧
      controllerOrder "StatefulSet" = some 2 ∧ controllerOrder "Job" = some 1 ∧
      controllerOrder "DaemonSet" = some 0 ∧ controllerOrder "Pod" = some (-1)) ∧
    (∀ a b na nb, controllerOrder a = some na → controllerOrder b = some nb → nb < na →
      controllerPriority a b = a ∧ controllerPriority b a = a) ∧
    (∀ r n, controllerOrder r = some n → 1 ≤ n →
      controllerPriority u r = r ∧ controllerPriority r u = r) ∧
    controllerPriority u "Pod" = u ∧ controllerPriority "Pod" u = u ∧
    controllerPriority u "DaemonSet" = u ∧
    controllerPriority "DaemonSet" u = "DaemonSet" := by
  have hu0 : effectiveOrder u = 0 := effectiveOrder_of_none hu
  refine ⟨⟨rfl, rfl, rfl, rfl, rfl, rfl, rfl, rfl⟩, ?_, ?_, ?_, ?_, ?_, ?_⟩
  · intro a b na nb ha hb hlt
    have ha' := effectiveOrder_of_some ha
    have hb' := effectiveOrder_of_some hb
    constructor
    · simp [controllerPriority, ha', hb']
      omega
    · simp [controllerPriority, ha', hb']
      omega
  · intro r n hr hn
    have hr' := effectiveOrder_of_some hr
    constructor
    · simp [controllerPriority, hu0, hr']
      omega
    · simp [controllerPriority, hu0, hr']
      omega
  · have : effectiveOrder "Pod" = -1 := by decide
    simp [controllerPriority, hu0, this]
  · have : effectiveOrder "Pod" = -1 := by decide
    simp [controllerPriority, hu0, this]
  · have : effectiveOrder "DaemonSet" = 0 := by decide
    simp [controllerPriority, hu0, this]
  · have : effectiveOrder "DaemonSet" = 0 := by decide
    simp [controllerPriority, hu0, this]

/-- Claim C4, witness: the amended facts applied at the concrete
unranked kind Rollout and concrete ranked kinds. -/
theorem claim_C4_witness :
    controllerPriority "Rollout" "Job" = "Job" ∧
      controllerPriority "Job" "Rollout" = "Job" ∧
      controllerPriority "Rollout" "Pod" = "Rollout" ∧
      controllerPriority "DaemonSet" "Rollout" = "DaemonSet" ∧
      controllerPriority "Deployment" "StatefulSet" = "Deployment" := by
  have h := claim_C4 "Rollout" rfl
  have hj := h.2.2.1 "Job" 1 rfl (by decide)
  have hd := (h.2.1 "Deployment" "StatefulSet" 6 2 rfl rfl (by decide)).1
  exact ⟨hj.1, hj.2, h.2.2.2.1, h.2.2.2.2.2.2, hd⟩

/-! ## Claim C5 -/

/-- Claim C5: controllerPriority names the same winning kind in either
argument order whenever the two kinds do not tie in rank (rank being the
effective weight the code computes, with absent kinds weighing 0); on an
exact tie the first argument wins; and controllerPriority of Deployment
against Pod is Deployment. -/
theorem claim_C5 :
    (∀ a b, effectiveOrder a ≠ effectiveOrder b →
      controllerPriority a b = controllerPriority b a) ∧
    (∀ a b, effectiveOrder a = effectiveOrder b → controllerPriority a b = a) ∧
    controllerPriority "Deployment" "Pod" = "Deployment" := by
  refine ⟨?_, ?_, by decide⟩
  · intro a b hne
    rcases lt_or_gt_of_ne hne with h | h
    · simp [controllerPriority, not_le.mpr h, le_of_lt h]
    · simp [controllerPriority, not_le.mpr h, le_of_lt h]
  · intro a b heq
    simp [controllerPriority, heq]

/-- Claim C5, witness: argument-order independence at a concrete
non-tied pair, and the first-argument tie rule at a concrete tie. -/
theorem claim_C5_witness :
    controllerPriority "Deployment" "Job" = controllerPriority "Job" "Deployment" ∧
      controllerPriority "Rollout" "DaemonSet" = "Rollout" ∧
      controllerPriority "Deployment" "Pod" = "Deployment" := by
  have h := claim_C5
  exact ⟨h.1 "Deployment" "Job" (by decide), h.2.1 "Rollout" "DaemonSet" (by decide),
    h.2.2⟩

/-! ## Claim C6 -/

/-- Claim C6, counterexample: when only the daemon-set fetch fails, the
error channel stays empty (the daemon-set goroutine at workloads.go
587-589 only logs its error) and fetchWorkloads returns success with the
daemon-set list treated as empty, so the claim that every error of the
nine fetches is forwarded and makes the call fail is false. -/
theorem claim_C6_counterexample :
    forwardedErrors
        ⟨.ok [], .ok [], .ok [], .ok [], .ok [], .ok [], .ok [], .ok [],
          .error "daemonset fetch failed"⟩ = [] ∧
      fetchWorkloadsRun
        ⟨.ok [], .ok [], .ok [], .ok [], .ok [], .ok [], .ok [], .ok [],
          .error "daemonset fetch failed"⟩ none = ([], none) := by
  exact ⟨rfl, rfl⟩

/-- Claim C6, amended: errors from eight of the nine fetches (pods,
deployments, replica-sets, replication-controllers, deployment-configs,
stateful-sets, cron-jobs, jobs) are forwarded on the capacity-9 buffered
error channel; the caller waits for all fetches and, if any error was
forwarded, returns the first observed error together with an empty
workload list; a daemon-set fetch error is not forwarded, only logged,
and resolution proceeds with the daemon-set list empty. -/
theorem claim_C6 (a : FetchAttempts) (sel : Option Labels) :
    (∀ e, a.podsR = .error e → e ∈ forwardedErrors a) ∧
    (∀ e, a.depR = .error e → e ∈ forwardedErrors a) ∧
    (∀ e, a.repsetR = .error e → e ∈ forwardedErrors a) ∧
    (∀ e, a.repconR = .error e → e ∈ forwardedErrors a) ∧
    (∀ e, a.depconR = .error e → e ∈ forwardedErrors a) ∧
    (∀ e, a.fulsetR = .error e → e ∈ forwardedErrors a) ∧
    (∀ e, a.conjbsR = .error e → e ∈ forwardedErrors a) ∧
    (∀ e, a.jbsR = .error e → e ∈ forwardedErrors a) ∧
    (∀ x, forwardedErrors { a with daesetR := x } = forwardedErrors a) ∧
    (∀ e rest, forwardedErrors a = e :: rest → fetchWorkloadsRun a sel = ([], some e)) ∧
    (forwardedErrors a = [] →
      fetchWorkloadsRun a sel = (fetchWorkloadsPure (listsOf a) sel, none)) := by
  refine ⟨?_, ?_, ?_, ?_, ?_, ?_, ?_, ?_, ?_, ?_, ?_⟩
  · intro e he; simp [forwardedErrors, attemptError, he]
  · intro e he; simp [forwardedErrors, attemptError, he]
  · intro e he; simp [forwardedErrors, attemptError, he]
  · intro e he; simp [forwardedErrors, attemptError, he]
  · intro e he; simp [forwardedErrors, attemptError, he]
  · intro e he; simp [forwardedErrors, attemptError, he]
  · intro e he; simp [forwardedErrors, attemptError, he]
  · intro e he; simp [forwardedErrors, attemptError, he]
  · intro x; simp [forwardedErrors]
  · intro e rest h; simp [fetchWorkloadsRun, h]
  · intro h; simp [fetchWorkloadsRun, h]

/-- Claim C6, witness: the amended statement applied at a concrete
attempt record whose pods fetch fails. -/
theorem claim_C6_witness :
    fetchWorkloadsRun
        ⟨.error "pods down", .ok [], .ok [], .ok [], .ok [], .ok [], .ok [], .ok [],
          .ok []⟩ none = ([], some "pods down") := by
  have h := claim_C6
    ⟨.error "pods down", .ok [], .ok [], .ok [], .ok [], .ok [], .ok [], .ok [], .ok []⟩
    none
  exact h.2.2.2.2.2.2.2.2.2.1 "pods down" [] rfl

/-! ## Claim C3 -/

/-- Claim C3, counterexample: a pod whose only owner reference is
non-controlling has no controller owner reference, yet fetchWorkloads
produces no workload at all for it: the code branches on the owner
reference list being non-empty (workloads.go 604), not on the absence of
a controller-owning reference, so the pod is skipped entirely. -/
theorem claim_C3_counterexample :
    (∀ r ∈ ([⟨"ctrl", "Deployment", false⟩] : List OwnerRef), r.controller = false) ∧
      fetchWorkloadsPure
        ⟨[⟨"lonely", [], [⟨"ctrl", "Deployment", false⟩]⟩], [], [], [], [], [], [], [], []⟩
        none = [] := by
  exact ⟨by decide, by rfl⟩

/-- Claim C3, amended: for every observed pod with zero owner
references, whose name is hit by no owner reference of any pod or
fetched child controller and which is the first fetched pod of its name,
the workload list returned by fetchWorkloads contains exactly one
single-pod workload of kind Pod named after that pod, containing exactly
that pod. -/
theorem claim_C3 (D : FetchLists) (sel : Option Labels) (p : CorePod)
    (hp : p ∈ D.pods) (h0 : p.ownerRefs = [])
    (hpods : ∀ q ∈ D.pods, ∀ r ∈ q.ownerRefs, r.name ≠ p.name)
    (hcrs : ∀ o ∈ D.repset, ∀ r ∈ o.ownerRefs, r.name ≠ p.name)
    (hcrc : ∀ o ∈ D.repcon, ∀ r ∈ o.ownerRefs, r.name ≠ p.name)
    (hcj : ∀ o ∈ D.jbs, ∀ r ∈ o.ownerRefs, r.name ≠ p.name)
    (hfirst : D.pods.find? (fun q => q.name == p.name) = some p) :
    (fetchWorkloadsPure D sel).filter (fun w => w.name = p.name) =
      [⟨p.name, "Pod", [p]⟩] := by
  have h1 : idxLookup (buildIndex D.pods) p.name = some "Pod" :=
    buildIndex_orphan_pod hp h0 hpods
  have h2 : idxLookup (resolveHop D.repset D.repcon D.jbs D.conjbs (buildIndex D.pods))
      p.name = some "Pod" := by
    unfold resolveHop
    exact foldl_hopName_pres_some (by decide) (by decide) (by decide)
      (fun o ho r hr _ hrn => absurd hrn (hcrs o ho r hr))
      (fun o ho r hr _ hrn => absurd hrn (hcrc o ho r hr))
      (fun o ho r hr _ hrn => absurd hrn (hcj o ho r hr)) h1
  have h3 : idxLookup (finalIndex D sel) p.name = some "Pod" := by
    unfold finalIndex
    exact orphanComplete_pres_some h2
  have hmem : p.name ∈ idxKeys (finalIndex D sel) :=
    (mem_idxKeys_iff_lookup _ _).mpr (by rw [h3]; rfl)
  have hmat : materializeOne D (finalIndex D sel) p.name = some ⟨p.name, "Pod", [p]⟩ := by
    simp [materializeOne, h3, hfirst]
  exact fetchWorkloadsPure_filter_name hmem hmat

/-- Claim C3, witness: the amended statement at the concrete stand-alone
pod of the spec scenario. -/
theorem claim_C3_witness :
    (fetchWorkloadsPure ⟨[⟨"orphan-pod", [], []⟩], [], [], [], [], [], [], [], []⟩
        none).filter (fun w => w.name = "orphan-pod") =
      [⟨"orphan-pod", "Pod", [⟨"orphan-pod", [], []⟩]⟩] := by
  exact claim_C3 ⟨[⟨"orphan-pod", [], []⟩], [], [], [], [], [], [], [], []⟩ none
    ⟨"orphan-pod", [], []⟩ (by decide) rfl (by decide) (by decide) (by decide) (by decide)
    (by decide)

/-! ## Claim C1 -/

/-- Claim C1, counterexample: the replica-set entry is recorded from pod
owner references and the fetched replica-set carries a controller-owning
owner reference to deployment d1, so the claim requires the output to
contain a workload for d1; but d1 is absent from the fetched deployment
list, the materialization lookup fails (workloads.go 797-815), and the
output is empty: it contains no workload for the parent deployment. -/
theorem claim_C1_counterexample :
    idxLookup (buildIndex [⟨"pod-x", [], [⟨"rs1", "ReplicaSet", true⟩]⟩]) "rs1" =
        some "ReplicaSet" ∧
      List.find? (fun o => o.name == "rs1")
          ([⟨"rs1", [⟨"d1", "Deployment", true⟩], []⟩] : List KController) =
        some ⟨"rs1", [⟨"d1", "Deployment", true⟩], []⟩ ∧
      fetchWorkloadsPure
        ⟨[⟨"pod-x", [], [⟨"rs1", "ReplicaSet", true⟩]⟩], [],
          [⟨"rs1", [⟨"d1", "Deployment", true⟩], []⟩], [], [], [], [], [], []⟩ none = [] := by
  refine ⟨by rfl, by rfl, by rfl⟩

/-- Claim C1, amended: for every replica-set name recorded in the
controller index from pod owner references, if the fetched replica-set
list contains an object of that name whose controller-owning owner
reference names a deployment, then (under freedom from name collisions
between the replica-set or deployment name and unrelated objects) the
returned workload list contains no workload named after that
replica-set; and provided a deployment of the referenced name is present
in the fetched deployment list, the output contains a workload for the
parent deployment. -/
theorem claim_C1 (D : FetchLists) (sel : Option Labels) (rsname dname : String)
    (rs d : KController)
    (h1 : idxLookup (buildIndex D.pods) rsname = some "ReplicaSet")
    (hf : D.repset.find? (fun o => o.name == rsname) = some rs)
    (hrefs : rs.ownerRefs = [⟨dname, "Deployment", true⟩])
    (hcrs : ∀ o ∈ D.repset, ∀ r ∈ o.ownerRefs, r.name ≠ rsname)
    (hcrc : ∀ o ∈ D.repcon, ∀ r ∈ o.ownerRefs, r.name ≠ rsname)
    (hcj : ∀ o ∈ D.jbs, ∀ r ∈ o.ownerRefs, r.name ≠ rsname)
    (hodep : ∀ o ∈ D.dep, o.name ≠ rsname)
    (hodc : ∀ o ∈ D.depcon, o.name ≠ rsname)
    (hoss : ∀ o ∈ D.fulset, o.name ≠ rsname)
    (hods : ∀ o ∈ D.daeset, o.name ≠ rsname)
    (hrsown : ∀ o ∈ D.repset, o.name = rsname → o.ownerRefs ≠ [])
    (horc : ∀ o ∈ D.repcon, o.name ≠ rsname)
    (hdkp : ∀ q ∈ D.pods, ∀ r ∈ q.ownerRefs,
      r.controller = true → r.name = dname → r.kind = "Deployment")
    (hdnp : ∀ q ∈ D.pods, q.name ≠ dname)
    (hdkrs : ∀ o ∈ D.repset, ∀ r ∈ o.ownerRefs,
      r.controller = true → r.name = dname → r.kind = "Deployment")
    (hdkrc : ∀ o ∈ D.repcon, ∀ r ∈ o.ownerRefs,
      r.controller = true → r.name = dname → r.kind = "Deployment")
    (hdkj : ∀ o ∈ D.jbs, ∀ r ∈ o.ownerRefs,
      r.controller = true → r.name = dname → r.kind = "Deployment")
    (hd : D.dep.find? (fun o => o.name == dname) = some d) :
    (∀ w ∈ fetchWorkloadsPure D sel, w.name ≠ rsname) ∧
      ∃ w ∈ fetchWorkloadsPure D sel, w.name = dname ∧ w.wtype = "Deployment" := by
  have hrsmem : rs ∈ D.repset := List.mem_of_find?_eq_some hf
  have hdr : dname ≠ rsname := by
    have := hcrs rs hrsmem ⟨dname, "Deployment", true⟩ (by rw [hrefs]; exact List.mem_singleton_self _)
    exact this
  have hnd0 : (idxKeys (buildIndex D.pods)).Nodup := buildIndex_nodup D.pods
  have hmem0 : rsname ∈ idxKeys (buildIndex D.pods) :=
    (mem_idxKeys_iff_lookup _ _).mpr (by rw [h1]; rfl)
  obtain ⟨l1, l2, hsplit⟩ := List.append_of_mem hmem0
  have hnd' : (l1 ++ rsname :: l2).Nodup := hsplit ▸ hnd0
  have hdisj := (List.nodup_append.mp hnd').2.2
  have hrs_l1 : ∀ a ∈ l1, a ≠ rsname := fun a ha hc =>
    hdisj ha (hc ▸ List.mem_cons_self _ _)
  have hhop : resolveHop D.repset D.repcon D.jbs D.conjbs (buildIndex D.pods) =
      l2.foldl (hopName D.repset D.repcon D.jbs D.conjbs)
        (hopName D.repset D.repcon D.jbs D.conjbs
          (l1.foldl (hopName D.repset D.repcon D.jbs D.conjbs) (buildIndex D.pods))
          rsname) := by
    unfold resolveHop
    rw [hsplit, List.foldl_append, List.foldl_cons]
  have hA_rs : idxLookup
      (l1.foldl (hopName D.repset D.repcon D.jbs D.conjbs) (buildIndex D.pods)) rsname =
      some "ReplicaSet" := by
    rw [foldl_hopName_ne_pres hrs_l1 hcrs hcrc hcj]
    exact h1
  have hA_d : idxLookup
      (l1.foldl (hopName D.repset D.repcon D.jbs D.conjbs) (buildIndex D.pods)) dname =
        none ∨
      idxLookup
        (l1.foldl (hopName D.repset D.repcon D.jbs D.conjbs) (buildIndex D.pods)) dname =
        some "Deployment" := by
    refine foldl_hopName_keyQ (by decide) (by decide) (by decide) hdkrs hdkrc hdkj ?_
    exact buildIndex_keyQ D.pods dname "Deployment" hdkp
      (fun q hq hqn _ => absurd hqn (hdnp q hq))
  have hB : hopName D.repset D.repcon D.jbs D.conjbs
      (l1.foldl (hopName D.repset D.repcon D.jbs D.conjbs) (buildIndex D.pods)) rsname =
      idxErase (mergeController
        (l1.foldl (hopName D.repset D.repcon D.jbs D.conjbs) (buildIndex D.pods))
        dname "Deployment") rsname :=
    hopName_rs_step hA_rs hf hrefs
  have hB_rs : idxLookup (hopName D.repset D.repcon D.jbs D.conjbs
      (l1.foldl (hopName D.repset D.repcon D.jbs D.conjbs) (buildIndex D.pods)) rsname)
      rsname = none := by
    rw [hB]
    exact idxLookup_erase_self _ _
  have hB_d : idxLookup (hopName D.repset D.repcon D.jbs D.conjbs
      (l1.foldl (hopName D.repset D.repcon D.jbs D.conjbs) (buildIndex D.pods)) rsname)
      dname = some "Deployment" := by
    rw [hB, idxLookup_erase_ne _ hdr]
    exact mergeController_lookup_agree _ dname "Deployment" hA_d
  have hC_rs : idxLookup (resolveHop D.repset D.repcon D.jbs D.conjbs
      (buildIndex D.pods)) rsname = none := by
    rw [hhop]
    exact foldl_hopName_pres_none hcrs hcrc hcj hB_rs
  have hC_d : idxLookup (resolveHop D.repset D.repcon D.jbs D.conjbs
      (buildIndex D.pods)) dname = some "Deployment" := by
    rw [hhop]
    exact foldl_hopName_pres_some (by decide) (by decide) (by decide)
      hdkrs hdkrc hdkj hB_d
  have hF_rs : idxLookup (finalIndex D sel) rsname = none := by
    unfold finalIndex orphanComplete
    refine orphanPass_pres_none (orphanPass_pres_none (orphanPass_pres_none
      (orphanPass_pres_none (orphanPass_pres_none (orphanPass_pres_none hC_rs
        (fun o ho hon _ => hodep o ho hon))
        (fun o ho hon hcond => hrsown o ho hon (hcond.1 rfl)))
        (fun o ho hon _ => hodc o ho hon))
        (fun o ho hon _ => horc o ho hon))
        (fun o ho hon _ => hoss o ho hon))
      (fun o ho hon _ => hods o ho hon)
  have hF_d : idxLookup (finalIndex D sel) dname = some "Deployment" := by
    unfold finalIndex
    exact orphanComplete_pres_some hC_d
  constructor
  · intro w hw hcon
    obtain ⟨c, hcmem, hcmat⟩ := mem_fetchWorkloadsPure.mp hw
    have hcname := materializeOne_name hcmat
    have hceq : c = rsname := by rw [← hcname]; exact hcon
    subst hceq
    have := (mem_idxKeys_iff_lookup _ _).mp hcmem
    rw [hF_rs] at this
    cases this
  · refine ⟨⟨dname, "Deployment", FilterPodsForSelector d.templateLabels D.pods⟩, ?_,
      rfl, rfl⟩
    apply mem_fetchWorkloadsPure.mpr
    refine ⟨dname, (mem_idxKeys_iff_lookup _ _).mpr (by rw [hF_d]; rfl), ?_⟩
    simp [materializeOne, hF_d, materializeKind, hd]

/-- Claim C1, witness: the amended statement at the concrete scenario of
the spec (deployment app1 owning replica-set app1-abc123 owning two
pods, deployment present in the fetched list). -/
theorem claim_C1_witness :
    (∀ w ∈ fetchWorkloadsPure
        ⟨[⟨"app1-abc123-x1", [("app", "a")], [⟨"app1-abc123", "ReplicaSet", true⟩]⟩,
          ⟨"app1-abc123-x2", [("app", "a")], [⟨"app1-abc123", "ReplicaSet", true⟩]⟩],
          [⟨"app1", [], [("app", "a")]⟩],
          [⟨"app1-abc123", [⟨"app1", "Deployment", true⟩], [("app", "a")]⟩],
          [], [], [], [], [], []⟩ none, w.name ≠ "app1-abc123") ∧
      ∃ w ∈ fetchWorkloadsPure
        ⟨[⟨"app1-abc123-x1", [("app", "a")], [⟨"app1-abc123", "ReplicaSet", true⟩]⟩,
          ⟨"app1-abc123-x2", [("app", "a")], [⟨"app1-abc123", "ReplicaSet", true⟩]⟩],
          [⟨"app1", [], [("app", "a")]⟩],
          [⟨"app1-abc123", [⟨"app1", "Deployment", true⟩], [("app", "a")]⟩],
          [], [], [], [], [], []⟩ none, w.name = "app1" ∧ w.wtype = "Deployment" := by
  exact claim_C1 _ none "app1-abc123" "app1"
    ⟨"app1-abc123", [⟨"app1", "Deployment", true⟩], [("app", "a")]⟩
    ⟨"app1", [], [("app", "a")]⟩
    (by decide) (by decide) rfl (by decide) (by decide) (by decide) (by decide)
    (by decide) (by decide) (by decide) (by decide) (by decide) (by decide) (by decide)
    (by decide) (by decide) (by decide) (by decide)

/-! ## Claim C2 -/

/-- Claim C2: for a job entry of the index whose live job object carries
a controller-owning cron-job owner reference (under freedom from name
collisions at the job name): if a cron-job of the referenced name exists
in the fetched cron-job list, the job entry is deleted from the index by
the resolution hop; if no such cron-job was fetched, the entry is kept
with kind Job and the job appears as a standalone Job workload in the
output. -/
theorem claim_C2 (D : FetchLists) (sel : Option Labels) (jname cjname : String)
    (jb : KController)
    (h1 : idxLookup (buildIndex D.pods) jname = some "Job")
    (hf : D.jbs.find? (fun o => o.name == jname) = some jb)
    (hrefs : jb.ownerRefs = [⟨cjname, "CronJob", true⟩])
    (hcrs : ∀ o ∈ D.repset, ∀ r ∈ o.ownerRefs, r.name ≠ jname)
    (hcrc : ∀ o ∈ D.repcon, ∀ r ∈ o.ownerRefs, r.name ≠ jname)
    (hcj : ∀ o ∈ D.jbs, ∀ r ∈ o.ownerRefs, r.name ≠ jname) :
    (D.conjbs.any (fun c => c.name == cjname) = true →
      idxLookup (resolveHop D.repset D.repcon D.jbs D.conjbs (buildIndex D.pods))
        jname = none) ∧
    (D.conjbs.any (fun c => c.name == cjname) = false →
      idxLookup (resolveHop D.repset D.repcon D.jbs D.conjbs (buildIndex D.pods))
          jname = some "Job" ∧
        ∃ w ∈ fetchWorkloadsPure D sel, w.name = jname ∧ w.wtype = "Job") := by
  have hjbmem : jb ∈ D.jbs := List.mem_of_find?_eq_some hf
  have hcjne : cjname ≠ jname := by
    have := hcj jb hjbmem ⟨cjname, "CronJob", true⟩
      (by rw [hrefs]; exact List.mem_singleton_self _)
    exact this
  have hnd0 : (idxKeys (buildIndex D.pods)).Nodup := buildIndex_nodup D.pods
  have hmem0 : jname ∈ idxKeys (buildIndex D.pods) :=
    (mem_idxKeys_iff_lookup _ _).mpr (by rw [h1]; rfl)
  obtain ⟨l1, l2, hsplit⟩ := List.append_of_mem hmem0
  have hnd' : (l1 ++ jname :: l2).Nodup := hsplit ▸ hnd0
  have hdisj := (List.nodup_append.mp hnd').2.2
  have hj_l1 : ∀ a ∈ l1, a ≠ jname := fun a ha hc =>
    hdisj ha (hc ▸ List.mem_cons_self _ _)
  have hhop : resolveHop D.repset D.repcon D.jbs D.conjbs (buildIndex D.pods) =
      l2.foldl (hopName D.repset D.repcon D.jbs D.conjbs)
        (hopName D.repset D.repcon D.jbs D.conjbs
          (l1.foldl (hopName D.repset D.repcon D.jbs D.conjbs) (buildIndex D.pods))
          jname) := by
    unfold resolveHop
    rw [hsplit, List.foldl_append, List.foldl_cons]
  have hA : idxLookup
      (l1.foldl (hopName D.repset D.repcon D.jbs D.conjbs) (buildIndex D.pods)) jname =
      some "Job" := by
    rw [foldl_hopName_ne_pres hj_l1 hcrs hcrc hcj]
    exact h1
  have hB : hopName D.repset D.repcon D.jbs D.conjbs
      (l1.foldl (hopName D.repset D.repcon D.jbs D.conjbs) (buildIndex D.pods)) jname =
      if D.conjbs.any (fun c => c.name == cjname) then
        idxErase (mergeController
          (l1.foldl (hopName D.repset D.repcon D.jbs D.conjbs) (buildIndex D.pods))
          cjname "CronJob") jname
      else mergeController
        (l1.foldl (hopName D.repset D.repcon D.jbs D.conjbs) (buildIndex D.pods))
        cjname "CronJob" :=
    hopName_job_step hA hf hrefs
  constructor
  · intro hany
    have hB_j : idxLookup (hopName D.repset D.repcon D.jbs D.conjbs
        (l1.foldl (hopName D.repset D.repcon D.jbs D.conjbs) (buildIndex D.pods)) jname)
        jname = none := by
      rw [hB, if_pos hany]
      exact idxLookup_erase_self _ _
    rw [hhop]
    exact foldl_hopName_pres_none hcrs hcrc hcj hB_j
  · intro hany
    have hB_j : idxLookup (hopName D.repset D.repcon D.jbs D.conjbs
        (l1.foldl (hopName D.repset D.repcon D.jbs D.conjbs) (buildIndex D.pods)) jname)
        jname = some "Job" := by
      rw [hB, if_neg (by simp [hany])]
      rw [mergeController_lookup_ne _ "CronJob" (Ne.symm hcjne)]
      exact hA
    have hC : idxLookup (resolveHop D.repset D.repcon D.jbs D.conjbs
        (buildIndex D.pods)) jname = some "Job" := by
      rw [hhop]
      refine foldl_invariant _ (fun m' => idxLookup m' jname = some "Job") _ _ hB_j ?_
      intro m' a ha hP
      have hane : a ≠ jname := by
        have hndl2 : (jname :: l2).Nodup := (List.nodup_append.mp hnd').2.1
        intro hc
        exact (List.nodup_cons.mp hndl2).1 (hc ▸ ha)
      exact hopName_P D.repset D.repcon D.jbs D.conjbs m' a
        (fun m'' => idxLookup m'' jname = some "Job")
        (fun m'' hp => (hopChild_lookup_pres hane hcrs).trans hp)
        (fun m'' hp => (hopChild_lookup_pres hane hcrc).trans hp)
        (fun m'' hp => (hopChildJob_lookup_pres hane hcj).trans hp) hP
    refine ⟨hC, ⟨jname, "Job", FilterPodsForSelector jb.templateLabels D.pods⟩, ?_,
      rfl, rfl⟩
    have hFin : idxLookup (finalIndex D sel) jname = some "Job" := by
      unfold finalIndex
      exact orphanComplete_pres_some hC
    apply mem_fetchWorkloadsPure.mpr
    refine ⟨jname, (mem_idxKeys_iff_lookup _ _).mpr (by rw [hFin]; rfl), ?_⟩
    simp [materializeOne, hFin, materializeKind, hf]

/-- Claim C2, witness: both halves at concrete inputs: job j1 with a
cron-job parent cj1 present in the fetched cron-job list (entry
deleted), and the same setup with no fetched cron-jobs (job kept and
output as a standalone Job workload). -/
theorem claim_C2_witness :
    (idxLookup (resolveHop [] [] [⟨"j1", [⟨"cj1", "CronJob", true⟩], [("j", "1")]⟩]
        [⟨"cj1", [], [("j", "1")]⟩]
        (buildIndex [⟨"j1-x", [("j", "1")], [⟨"j1", "Job", true⟩]⟩])) "j1" = none) ∧
      ∃ w ∈ fetchWorkloadsPure
        ⟨[⟨"j1-x", [("j", "1")], [⟨"j1", "Job", true⟩]⟩], [], [], [], [], [], [],
          [⟨"j1", [⟨"cj1", "CronJob", true⟩], [("j", "1")]⟩], []⟩ none,
        w.name = "j1" ∧ w.wtype = "Job" := by
  constructor
  · exact (claim_C2
      ⟨[⟨"j1-x", [("j", "1")], [⟨"j1", "Job", true⟩]⟩], [], [], [], [], [], [],
        [⟨"j1", [⟨"cj1", "CronJob", true⟩], [("j", "1")]⟩],
        [⟨"cj1", [], [("j", "1")]⟩]⟩ none "j1" "cj1"
      ⟨"j1", [⟨"cj1", "CronJob", true⟩], [("j", "1")]⟩
      (by decide) (by decide) rfl (by decide) (by decide) (by decide)).1 (by decide)
  · exact ((claim_C2
      ⟨[⟨"j1-x", [("j", "1")], [⟨"j1", "Job", true⟩]⟩], [], [], [], [], [], [],
        [⟨"j1", [⟨"cj1", "CronJob", true⟩], [("j", "1")]⟩], []⟩ none "j1" "cj1"
      ⟨"j1", [⟨"cj1", "CronJob", true⟩], [("j", "1")]⟩
      (by decide) (by decide) rfl (by decide) (by decide) (by decide)).2 (by decide)).2

/-! ## Claim C10 -/

/-- Claim C10: a replica-set index entry whose live object carries a
controller-owning owner reference is deleted by the hop without any
check that the referenced parent deployment was fetched: with the
deployment list empty, the entry is deleted all the same, the parent
entry fails the materialization lookup, and the returned workload list
is empty, so the pods of the replica-set appear under no workload. -/
theorem claim_C10 (pname rsname dname : String) (plabels rslabels : Labels)
    (hne : rsname ≠ dname) :
    idxLookup (resolveHop [⟨rsname, [⟨dname, "Deployment", true⟩], rslabels⟩] [] [] []
        (buildIndex [⟨pname, plabels, [⟨rsname, "ReplicaSet", true⟩]⟩])) rsname = none ∧
      fetchWorkloadsPure
        ⟨[⟨pname, plabels, [⟨rsname, "ReplicaSet", true⟩]⟩], [],
          [⟨rsname, [⟨dname, "Deployment", true⟩], rslabels⟩], [], [], [], [], [], []⟩
        none = [] := by
  have hne' : dname ≠ rsname := Ne.symm hne
  have e0 : buildIndex [⟨pname, plabels, [⟨rsname, "ReplicaSet", true⟩]⟩] =
      [(rsname, "ReplicaSet")] := by
    simp [buildIndex, buildIndexPod, mergeController, idxLookup, idxInsert]
  have e1 : resolveHop [⟨rsname, [⟨dname, "Deployment", true⟩], rslabels⟩] [] [] []
      [(rsname, "ReplicaSet")] = [(dname, "Deployment")] := by
    simp [resolveHop, idxKeys, hopName, idxLookup, hopChild, mergeController,
      idxInsert, idxErase, hne, hne']
  have e2 : orphanComplete none
      ⟨[⟨pname, plabels, [⟨rsname, "ReplicaSet", true⟩]⟩], [],
        [⟨rsname, [⟨dname, "Deployment", true⟩], rslabels⟩], [], [], [], [], [], []⟩
      [(dname, "Deployment")] = [(dname, "Deployment")] := by
    simp [orphanComplete, orphanPass, selectorCheck, idxLookup, hne']
  constructor
  · rw [e0, e1]
    simp [idxLookup, hne']
  · show ((idxKeys (finalIndex _ none)).insertionSort (· ≤ ·)).filterMap
      (materializeOne _ (finalIndex _ none)) = []
    have efin : finalIndex
        ⟨[⟨pname, plabels, [⟨rsname, "ReplicaSet", true⟩]⟩], [],
          [⟨rsname, [⟨dname, "Deployment", true⟩], rslabels⟩], [], [], [], [], [], []⟩
        none = [(dname, "Deployment")] := by
      show orphanComplete none _ (resolveHop _ _ _ _ (buildIndex _)) = _
      rw [e0, e1, e2]
    rw [efin]
    simp [idxKeys, List.insertionSort, materializeOne, idxLookup, materializeKind]

/-- Claim C10, witness: the statement at concrete names. -/
theorem claim_C10_witness :
    idxLookup (resolveHop [⟨"rs1", [⟨"d1", "Deployment", true⟩], []⟩] [] [] []
        (buildIndex [⟨"pod-x", [], [⟨"rs1", "ReplicaSet", true⟩]⟩])) "rs1" = none ∧
      fetchWorkloadsPure
        ⟨[⟨"pod-x", [], [⟨"rs1", "ReplicaSet", true⟩]⟩], [],
          [⟨"rs1", [⟨"d1", "Deployment", true⟩], []⟩], [], [], [], [], [], []⟩
        none = [] := by
  exact claim_C10 "pod-x" "rs1" "d1" [] [] (by decide)

/-! ## Claim C7 -/

/-- Claim C7: during orphan completion, deployments, deployment-configs,
stateful-sets and daemon-sets passing the selector check end up present
in the index with no owner-reference requirement; a name that was absent
and ends up carrying kind ReplicaSet (or ReplicationController) was
added by the corresponding pass, which requires an object of that name
with zero owner references passing the selector check. -/
theorem claim_C7 (sel : Option Labels) (D : FetchLists) (m : CIndex) :
    (∀ o ∈ D.dep, selectorCheck sel o = true →
      (idxLookup (orphanComplete sel D m) o.name).isSome = true) ∧
    (∀ o ∈ D.depcon, selectorCheck sel o = true →
      (idxLookup (orphanComplete sel D m) o.name).isSome = true) ∧
    (∀ o ∈ D.fulset, selectorCheck sel o = true →
      (idxLookup (orphanComplete sel D m) o.name).isSome = true) ∧
    (∀ o ∈ D.daeset, selectorCheck sel o = true →
      (idxLookup (orphanComplete sel D m) o.name).isSome = true) ∧
    (∀ o ∈ D.repset, idxLookup m o.name = none →
      idxLookup (orphanComplete sel D m) o.name = some "ReplicaSet" →
      ∃ o' ∈ D.repset, o'.name = o.name ∧ o'.ownerRefs = [] ∧
        selectorCheck sel o' = true) ∧
    (∀ o ∈ D.repcon, idxLookup m o.name = none →
      idxLookup (orphanComplete sel D m) o.name = some "ReplicationController" →
      ∃ o' ∈ D.repcon, o'.name = o.name ∧ o'.ownerRefs = [] ∧
        selectorCheck sel o' = true) := by
  refine ⟨?_, ?_, ?_, ?_, ?_, ?_⟩
  · intro o ho hsel
    unfold orphanComplete
    exact orphanPass_pres_isSome (orphanPass_pres_isSome (orphanPass_pres_isSome
      (orphanPass_pres_isSome (orphanPass_pres_isSome
        (orphanPass_adds ho (fun h => Bool.noConfusion h) hsel)))))
  · intro o ho hsel
    unfold orphanComplete
    exact orphanPass_pres_isSome (orphanPass_pres_isSome (orphanPass_pres_isSome
      (orphanPass_adds ho (fun h => Bool.noConfusion h) hsel)))
  · intro o ho hsel
    unfold orphanComplete
    exact orphanPass_pres_isSome
      (orphanPass_adds ho (fun h => Bool.noConfusion h) hsel)
  · intro o ho hsel
    unfold orphanComplete
    exact orphanPass_adds ho (fun h => Bool.noConfusion h) hsel
  · intro o ho hnone hfinal
    unfold orphanComplete at hfinal
    rcases orphanPass_lookup_inv hfinal with h5 | ⟨hv, _⟩
    · rcases orphanPass_lookup_inv h5 with h4 | ⟨hv, _⟩
      · rcases orphanPass_lookup_inv h4 with h3 | ⟨hv, _⟩
        · rcases orphanPass_lookup_inv h3 with h2 | ⟨hv, _⟩
          · rcases orphanPass_lookup_inv h2 with h1 | ⟨_, o', ho', hon, himp, hsel⟩
            · rcases orphanPass_lookup_inv h1 with h0 | ⟨hv, _⟩
              · rw [hnone] at h0; cases h0
              · exact absurd hv (by decide)
            · exact ⟨o', ho', hon, himp rfl, hsel⟩
          · exact absurd hv (by decide)
        · exact absurd hv (by decide)
      · exact absurd hv (by decide)
    · exact absurd hv (by decide)
  · intro o ho hnone hfinal
    unfold orphanComplete at hfinal
    rcases orphanPass_lookup_inv hfinal with h5 | ⟨hv, _⟩
    · rcases orphanPass_lookup_inv h5 with h4 | ⟨hv, _⟩
      · rcases orphanPass_lookup_inv h4 with h3 | ⟨_, o', ho', hon, himp, hsel⟩
        · rcases orphanPass_lookup_inv h3 with h2 | ⟨hv, _⟩
          · rcases orphanPass_lookup_inv h2 with h1 | ⟨hv, _⟩
            · rcases orphanPass_lookup_inv h1 with h0 | ⟨hv, _⟩
              · rw [hnone] at h0; cases h0
              · exact absurd hv (by decide)
            · exact absurd hv (by decide)
          · exact absurd hv (by decide)
        · exact ⟨o', ho', hon, himp rfl, hsel⟩
      · exact absurd hv (by decide)
    · exact absurd hv (by decide)

/-- Claim C7, witness: at concrete inputs, a deployment is added with a
non-empty owner-reference list, while an owned replica-set with the same
shape is not promoted (its name stays absent). -/
theorem claim_C7_witness :
    (idxLookup (orphanComplete none
        ⟨[], [⟨"d1", [⟨"own", "X", true⟩], []⟩], [⟨"rs1", [⟨"own", "X", true⟩], []⟩],
          [], [], [], [], [], []⟩ []) "d1").isSome = true ∧
      ∀ o' ∈ ([⟨"rs1", [⟨"own", "X", true⟩], []⟩] : List KController),
        ¬(o'.name = "rs1" ∧ o'.ownerRefs = [] ∧ selectorCheck none o' = true) := by
  constructor
  · exact (claim_C7 none
      ⟨[], [⟨"d1", [⟨"own", "X", true⟩], []⟩], [⟨"rs1", [⟨"own", "X", true⟩], []⟩],
        [], [], [], [], [], []⟩ []).1 ⟨"d1", [⟨"own", "X", true⟩], []⟩ (by decide) rfl
  · decide

/-! ## Claim C8 -/

/-- Claim C8: when the requested workload name resolves to no matching
controller or pod, fetchWorkload returns the typed Not-Found condition
built by NewNotFound, which is distinguishable from a generic error; an
outcome equal to the Not-Found condition is never an ok result, so no
empty-but-successful value is returned. -/
theorem claim_C8 (env : SingleEnv) (workloadName workloadType : String) :
    (idxLookup (resolvedSingleIndex env workloadType) workloadName = none →
      fetchWorkloadPure env workloadName workloadType =
        .error (NewNotFound workloadName "Kiali" "Workload")) ∧
    (∀ ctype, idxLookup (resolvedSingleIndex env workloadType) workloadName = some ctype →
      materializeSingle (gatedEnv env workloadType) workloadName ctype
        (pickControllerType ctype workloadType) = none →
      fetchWorkloadPure env workloadName workloadType =
        .error (NewNotFound workloadName "Kiali" "Workload")) ∧
    (∀ msg, NewNotFound workloadName "Kiali" "Workload" ≠ WErr.generic msg) ∧
    (∀ w : Workload, fetchWorkloadPure env workloadName workloadType =
        .error (NewNotFound workloadName "Kiali" "Workload") →
      fetchWorkloadPure env workloadName workloadType ≠ .ok w) := by
  refine ⟨?_, ?_, ?_, ?_⟩
  · intro h
    simp [fetchWorkloadPure, h]
  · intro ctype hl hmat
    simp [fetchWorkloadPure, hl, hmat]
  · intro msg h
    cases h
  · intro w he hc
    rw [he] at hc
    cases hc

/-- Claim C8, witness: a name that resolves nowhere yields the typed
Not-Found condition. -/
theorem claim_C8_witness :
    fetchWorkloadPure ⟨[], none, [], [], none, none, [], [], none⟩ "nope" "" =
      .error (NewNotFound "nope" "Kiali" "Workload") := by
  exact (claim_C8 ⟨[], none, [], [], none, none, [], [], none⟩ "nope" "").1 (by decide)

/-! ## Claim C9 -/

/-- Claim C9: whenever a non-empty workload-type hint disagrees with the
kind resolved from the index for the requested name, the hint selects
the materialization branch: the selected controller type is the hint and
fetchWorkload materializes through the branch of the hinted kind. -/
theorem claim_C9 (env : SingleEnv) (workloadName workloadType ctype : String)
    (hwt : workloadType ≠ "")
    (hl : idxLookup (resolvedSingleIndex env workloadType) workloadName = some ctype)
    (hne : ctype ≠ workloadType) :
    pickControllerType ctype workloadType = workloadType ∧
      fetchWorkloadPure env workloadName workloadType =
        (match materializeSingle (gatedEnv env workloadType) workloadName ctype
            workloadType with
          | some w => Except.ok w
          | none => Except.error (NewNotFound workloadName "Kiali" "Workload")) := by
  have hpick : pickControllerType ctype workloadType = workloadType := by
    unfold pickControllerType
    rw [if_pos ⟨hwt, hne⟩]
  refine ⟨hpick, ?_⟩
  simp only [fetchWorkloadPure, hl, hpick]

/-- Claim C9, witness: a pod-resolved name requested with hint
Deployment is materialized through the Deployment branch (which fails
here, because no deployment of that name exists: the hint overrode the
resolution). -/
theorem claim_C9_witness :
    pickControllerType "Pod" "Deployment" = "Deployment" ∧
      fetchWorkloadPure ⟨[⟨"w1", [], []⟩], none, [], [], none, none, [], [], none⟩
          "w1" "Deployment" =
        .error (NewNotFound "w1" "Kiali" "Workload") := by
  have h := claim_C9 ⟨[⟨"w1", [], []⟩], none, [], [], none, none, [], [], none⟩
    "w1" "Deployment" "Pod" (by decide) (by decide) (by decide)
  refine ⟨h.1, ?_⟩
  rw [h.2]
  rfl

end Swscore
